import Mathlib

/-!
Verification of the nas-subtitle-manager translation pipeline and job store.

The definitions below are shallow embeddings of the Python sources:
  * `src/services/translator.py` — batch planning, response parsing,
    adaptive batch translation;
  * `src/app.py`       — quality audit and the batch translation loop;
  * `src/database/task_dao.py` and `src/database/connection.py` — job store.

External effects (the OpenAI channel, `json.loads`, the SQLite engine,
`time.sleep`, file IO, progress callbacks) are modelled as explicit oracle
parameters or elided where they have no bearing on the verified properties.
-/

namespace NasSub

/-- Decidable equality of `Except` results, used to evaluate concrete
runs of the embedded functions. -/
instance {ε α : Type} [DecidableEq ε] [DecidableEq α] : DecidableEq (Except ε α)
  | .ok x, .ok y =>
    match decEq x y with
    | isTrue h => isTrue (congrArg Except.ok h)
    | isFalse h => isFalse (fun hc => h (Except.ok.inj hc))
  | .error x, .error y =>
    match decEq x y with
    | isTrue h => isTrue (congrArg Except.error h)
    | isFalse h => isFalse (fun hc => h (Except.error.inj hc))
  | .ok _, .error _ => isFalse (fun hc => Except.noConfusion hc)
  | .error _, .ok _ => isFalse (fun hc => Except.noConfusion hc)

/-- Substring test on character lists: does `pat` occur as a contiguous
infix of `s`?  Models Python's `pat in s` on strings. -/
def charsMatchAt : List Char → List Char → Bool
  | [], _ => true
  | _ :: _, [] => false
  | a :: as, b :: bs => a = b && charsMatchAt as bs

/-- `strContains s pat` models Python's `pat in s`. -/
def listContainsSub (pat : List Char) : List Char → Bool
  | [] => pat.isEmpty
  | b :: bs => charsMatchAt pat (b :: bs) || listContainsSub pat bs

/-- Python `pat in s` (substring containment). -/
def strContains (s pat : String) : Bool :=
  listContainsSub pat.data s.data

/-- Python `str.strip()` (modelled on ASCII whitespace, which is all the
sources ever produce at the trimmed positions).  Implemented on the
character list so that it evaluates inside the kernel. -/
def pyStrip (s : String) : String :=
  ⟨((s.data.dropWhile Char.isWhitespace).reverse.dropWhile
      Char.isWhitespace).reverse⟩

/-- Python `str.rstrip()`. -/
def pyRstrip (s : String) : String :=
  ⟨(s.data.reverse.dropWhile Char.isWhitespace).reverse⟩

/-- Python `s.startswith(pre)`. -/
def strStartsWith (s pre : String) : Bool :=
  charsMatchAt pre.data s.data

/-- Python `s.endswith(suf)`. -/
def strEndsWith (s suf : String) : Bool :=
  charsMatchAt suf.data.reverse s.data.reverse

/-- Python `s[:n]` (by characters, like Python on `str`). -/
def strTake (s : String) (n : Nat) : String := ⟨s.data.take n⟩

/-- Python `s[n:]`. -/
def strDrop (s : String) (n : Nat) : String := ⟨s.data.drop n⟩

/-- Python `s[:-n]`. -/
def strDropRight (s : String) (n : Nat) : String :=
  ⟨s.data.take (s.data.length - n)⟩

/-- Python `str.find(pat)` for a single character: index of the first
occurrence, or `-1` represented as `none`. -/
def strFindChar (s : String) (c : Char) : Option Nat :=
  s.data.findIdx? (· = c)

/-- Python `s.split(sep)` for a nonempty separator: leftmost
non-overlapping matches cut the string.  Fuelled by the character count
so it is structurally recursive (every step consumes at least one
character). -/
def splitGo (sep : List Char) : Nat → List Char → List Char → List (List Char)
  | _, [], acc => [acc.reverse]
  | 0, l, acc => [acc.reverse ++ l]
  | fuel + 1, c :: cs, acc =>
    if sep ≠ [] ∧ charsMatchAt sep (c :: cs) then
      acc.reverse :: splitGo sep fuel ((c :: cs).drop sep.length) []
    else splitGo sep fuel cs (c :: acc)

/-- Python `s.split(sep)`. -/
def pySplit (s sep : String) : List String :=
  (splitGo sep.data s.data.length s.data []).map (fun cs => (⟨cs⟩ : String))

/-- Python `sep.join(parts)`. -/
def pyJoin (sep : String) (parts : List String) : String :=
  ⟨(List.intersperse sep.data (parts.map (fun p => p.data))).flatten⟩

/-!  ## Data model (`src/services/translator.py`)

`SubtitleEntry` carries the original ordinal (`index`, kept as a string),
the timecode line, and the text. -/

structure SubtitleEntry where
  index : String
  timecode : String
  text : String
deriving Repr, DecidableEq

/-- One planned batch of `translate_subtitles` (translator.py:402-408):
the contiguous chunk of entries together with the optional context
strings handed to `_translate_batch`. -/
structure PlannedBatch where
  entries : List SubtitleEntry
  contextBefore : Option String
  contextAfter : Option String
deriving Repr, DecidableEq

/-!  ## Batch planner (`translate_subtitles`, translator.py:381-425)

The Python loop `for i in range(0, total_lines, max_batch)` takes
`batch = entries[i:i+max_batch]`,
`context_before = entries[i-1].text if i > 0 else None`,
`context_after = entries[i+max_batch].text if i+max_batch < total_lines else None`.
`planLoop` walks the same chunks: `prevText` is the text of the last entry
of the previous chunk, i.e. `entries[i-1].text`, and the head of the list
remaining after the current chunk is `entries[i+max_batch]`. -/

def planLoop (maxBatch : Nat) (prevText : Option String)
    (rest : List SubtitleEntry) : List PlannedBatch :=
  if maxBatch = 0 then []   -- Python: range(0, n, 0) raises ValueError
  else
    match rest with
    | [] => []
    | e :: rs =>
      let chunk := (e :: rs).take maxBatch
      let rest2 := (e :: rs).drop maxBatch
      { entries := chunk,
        contextBefore := prevText,
        contextAfter := rest2.head?.map (fun x => x.text) } ::
        planLoop maxBatch (chunk.getLast?.map (fun x => x.text)) rest2
termination_by rest.length
decreasing_by
  simp only [List.length_drop, List.length_cons]
  omega

/-- The full batch plan of `translate_subtitles` (translator.py:381-408):
empty input yields no batches; a document fitting in one batch is sent as
one call with no context; otherwise the chunking loop above. -/
def planBatches (entries : List SubtitleEntry) (maxBatch : Nat) :
    List PlannedBatch :=
  if entries = [] then []
  else if entries.length ≤ maxBatch then
    [{ entries := entries, contextBefore := none, contextAfter := none }]
  else planLoop maxBatch none entries

/-!  ## Python value model for `json.loads` results

`json.loads` is an external library call; it is modelled as an oracle
`J : String → Except String Json` (the error carries `str(e)` of the
`JSONDecodeError`).  `Json` mirrors the Python values `json.loads` can
produce (floats are not needed by any verified property and are folded
into `num`). -/

inductive Json where
  | null
  | bool (b : Bool)
  | num (n : Int)
  | str (s : String)
  | arr (elems : List Json)
  | obj (fields : List (String × Json))
deriving Repr

/-- An ASCII apostrophe, kept out of string literals. -/
def sq : String := String.singleton (Char.ofNat 39)

/-- Python `type(v).__name__`. -/
def Json.pyTypeName : Json → String
  | .null => "NoneType"
  | .bool _ => "bool"
  | .num _ => "int"
  | .str _ => "str"
  | .arr _ => "list"
  | .obj _ => "dict"

mutual

/-- Python `repr(v)` (used by f-string interpolation of containers);
string escaping inside reprs is not reproduced, no verified property
depends on it. -/
def Json.pyRepr : Json → String
  | .null => "None"
  | .bool b => if b then "True" else "False"
  | .num n => toString n
  | .str s => sq ++ s ++ sq
  | .arr xs => "[" ++ pyJoin ", " (Json.pyReprList xs) ++ "]"
  | .obj fs => "\x7b" ++ pyJoin ", " (Json.pyReprFields fs) ++ "\x7d"

def Json.pyReprList : List Json → List String
  | [] => []
  | x :: xs => Json.pyRepr x :: Json.pyReprList xs

def Json.pyReprFields : List (String × Json) → List String
  | [] => []
  | (k, v) :: fs => (sq ++ k ++ sq ++ ": " ++ Json.pyRepr v) :: Json.pyReprFields fs

end

/-- Python `str(v)`. -/
def Json.pyStr : Json → String
  | .str s => s
  | .num n => toString n
  | .bool b => if b then "True" else "False"
  | .null => "None"
  | v => v.pyRepr

/-- Python dict membership `k in item` for a parsed object. -/
def Json.hasKey (fields : List (String × Json)) (k : String) : Bool :=
  fields.any (fun p => p.1 = k)

/-- Python dict lookup on a parsed object (`json.loads` keeps the last
occurrence of a duplicated key, hence the reversed search). -/
def Json.getKey (fields : List (String × Json)) (k : String) : Option Json :=
  (fields.reverse.find? (fun p => p.1 = k)).map (fun p => p.2)

/-- Python `v == n` for an int `n` (`True == 1`, `False == 0`). -/
def Json.pyEqInt (v : Json) (n : Int) : Bool :=
  match v with
  | .num m => m = n
  | .bool b => (if b then (1 : Int) else 0) = n
  | _ => false

/-!  ## Response codec (`_parse_translation_response`, translator.py:176-277)

Every `ParseError` message raised by the parser is reproduced verbatim,
because `_translate_batch` (translator.py:343) classifies failures by
searching the message text. -/

/-- translator.py:215-218 — the distinguished truncated/abbreviated
failure message (two adjacent Python string literals, concatenated). -/
def truncationMsg (expectedCount : Nat) : String :=
  "AI 返回了省略格式（包含 ...），请求的 " ++ toString expectedCount ++
    " 条翻译未完整返回。这通常是因为内容过长，请降低 max_lines_per_batch 配置。"

/-- translator.py:244-248 — generic JSON decode failure; `emsg` is
`str(e)` of the `JSONDecodeError`, `resp` the (possibly repaired)
response at the time of the raise.  Note the literal `...` preview
marker embedded in the constant part of the message. -/
def jsonFailMsg (emsg resp : String) : String :=
  "JSON 解析失败: " ++ emsg ++ "\n原始响应预览: " ++ strTake resp 300 ++
    "...\n响应长度: " ++ toString resp.length ++ " 字符"

/-- translator.py:252 — parsed value is not a list. -/
def notListMsg (tyName : String) : String :=
  "期望 JSON 数组，实际得到: " ++ tyName

/-- translator.py:255-258 — element count mismatch.  Note the literal
`省略格式` embedded in the constant hint line. -/
def countMismatchMsg (expectedCount actual : Nat) : String :=
  "翻译数量不匹配: 期望 " ++ toString expectedCount ++ " 条，实际 " ++
    toString actual ++
    " 条\n提示: 如果 AI 返回了省略格式，请降低 max_lines_per_batch 配置（当前可能过大）"

/-- translator.py:264 — item `i` (0-based here) is not a dict. -/
def itemNotDictMsg (i : Nat) (item : Json) : String :=
  "第 " ++ toString (i + 1) ++ " 项不是字典: " ++ item.pyRepr

/-- translator.py:267 — item `i` has no translation field. -/
def missingTransMsg (i : Nat) (item : Json) : String :=
  "第 " ++ toString (i + 1) ++ " 项缺少 " ++ sq ++ "translation" ++ sq ++
    " 字段: " ++ item.pyRepr

/-- translator.py:271-273 — item `i` declares the wrong line number. -/
def lineMismatchMsg (i : Nat) (lineVal : Json) : String :=
  "第 " ++ toString (i + 1) ++ " 项的 line 值错误: 期望 " ++ toString (i + 1) ++
    "，实际 " ++ lineVal.pyStr

/-- translator.py:195-203 — strip a surrounding markdown code fence. -/
def stripCodeFence (response : String) : String :=
  if strStartsWith response "```" then
    let lines := pySplit response "\n"
    let lines := if strStartsWith (lines.headD "") "```" then lines.tail else lines
    let lines :=
      if lines ≠ [] ∧ pyStrip (lines.getLast?.getD "") = "```" then lines.dropLast
      else lines
    pyJoin "\n" lines
  else response

/-- translator.py:205-210 — discard prose before the first `[`.
Python's `str.find` returns `-1` when absent, and the guard is
`bracket_pos > 0`, so both "absent" and "at position 0" leave the
response unchanged. -/
def skipToBracket (response : String) : String :=
  if ¬ (strStartsWith (pyStrip response) "[") then
    match strFindChar response '[' with
    | some pos => if 0 < pos then strDrop response pos else response
    | none => response
  else response

/-- translator.py:213 — the truncation test:
`'...' in response and '"...' not in response`. -/
def isAbbreviated (response : String) : Bool :=
  strContains response "..." && !(strContains response "\"...")

/-- translator.py:227-232 — the first repair: if the (right-stripped)
response ends in `,]`, drop the dangling separator; `response` is
reassigned to the repaired text. -/
def applyFix1 (response : String) : String :=
  if strEndsWith (pyRstrip response) ",]" then
    strDropRight (pyRstrip response) 2 ++ "]"
  else response

/-- translator.py:234-240 — the second repair, tested on the (possibly
already repaired) response: append a missing closing bracket. -/
def applyFix2 (response : String) : String :=
  if ¬ (strEndsWith (pyRstrip response) "]") then pyRstrip response ++ "]"
  else response

/-- translator.py:221-248 — `json.loads` with the two bounded repairs.
Mirrors the Python control flow exactly: a repair attempts a reload only
when its trigger fires (`data` stays unset otherwise), the second repair
is tested on the output of the first, and the failure message previews
the final value of `response`. -/
def loadsWithRepairs (J : String → Except String Json) (response : String) :
    Except String Json :=
  match J response with
  | .ok d => .ok d
  | .error e =>
    match (if strEndsWith (pyRstrip response) ",]" then
            (J (applyFix1 response)).toOption
          else none).orElse
        (fun _ =>
          if ¬ (strEndsWith (pyRstrip (applyFix1 response)) "]") then
            (J (applyFix2 (applyFix1 response))).toOption
          else none) with
    | some d => .ok d
    | none => .error (jsonFailMsg e (applyFix2 (applyFix1 response)))

/-- translator.py:262-275, body of the validation loop for the 0-based
item `i`: must be a dict, must carry a translation, and a declared line
number must equal `i+1` (absent line numbers default to `i+1`, which
passes). -/
def extractItem (i : Nat) (item : Json) : Except String String :=
  match item with
  | .obj fields =>
    if ¬ (Json.hasKey fields "translation") then .error (missingTransMsg i item)
    else
      -- line_num = item.get('line', i+1); absent keys default to the
      -- Python int i+1, which then passes the comparison below
      if ((Json.getKey fields "line").getD (.num (Int.ofNat i + 1))).pyEqInt
          (Int.ofNat i + 1) then
        .ok (pyStrip ((Json.getKey fields "translation").getD .null).pyStr)
      else
        .error (lineMismatchMsg i
          ((Json.getKey fields "line").getD (.num (Int.ofNat i + 1))))
  | _ => .error (itemNotDictMsg i item)

/-- translator.py:261-277 — the validation loop, first failure wins. -/
def extractItems (i : Nat) : List Json → Except String (List String)
  | [] => .ok []
  | item :: rest =>
    match extractItem i item with
    | .error e => .error e
    | .ok t =>
      match extractItems (i + 1) rest with
      | .error e => .error e
      | .ok ts => .ok (t :: ts)

/-- translator.py:194-210 — the normalisation pipeline applied to the
raw response before the truncation test and decode: strip, remove a
code fence, skip leading prose. -/
def normalizeResponse (response0 : String) : String :=
  skipToBracket (stripCodeFence (pyStrip response0))

/-- translator.py:176-277, `_parse_translation_response` end to end:
normalisation, truncation test, decode with repairs, validation. -/
def parseTranslationResponse (J : String → Except String Json)
    (response0 : String) (expectedCount : Nat) : Except String (List String) :=
  if isAbbreviated (normalizeResponse response0) then
    .error (truncationMsg expectedCount)
  else
    match loadsWithRepairs J (normalizeResponse response0) with
    | .error msg => .error msg
    | .ok data =>
      match data with
      | .arr items =>
        if items.length ≠ expectedCount then
          .error (countMismatchMsg expectedCount items.length)
        else extractItems 0 items
      | _ => .error (notListMsg data.pyTypeName)

/-!  ## Adaptive batch translator (`_translate_batch`, translator.py:279-366)

The OpenAI channel is an external collaborator: it is modelled as an
oracle `chan : Nat → Except String String` mapping the index of the call
(in program order) to either a raised exception (`.error`, covering
network/auth/decode errors — the `except Exception` arm) or the response
body.  The prompt built by `_build_translation_prompt` is consumed only
by the channel, so it does not appear in the model; `time.sleep` and the
progress prints are elided.

`_translate_batch` recurses into itself both for bisection
(translator.py:302-308) and on a truncation-classified parse failure
(translator.py:343-347); the latter re-entry does not shrink anything,
so the Python function can fail to terminate.  The model therefore runs
on an explicit `fuel` that decreases at every step; `fuel = 0` yields the
distinguished `.fuelOut` outcome (meaning: the Python program has not
returned yet). -/

/-- Failure outcomes of `_translate_batch` / `translate_subtitles`:
`ParseError`, `APIError`, the `TranslationError` wrapper of
translator.py:368-425, and fuel exhaustion (models nontermination). -/
inductive TErr where
  | parse (msg : String)
  | api (msg : String)
  | trans (msg : String)
  | fuelOut
deriving Repr, DecidableEq

/-- The message carried by an error (Python `str(e)`). -/
def TErr.msg : TErr → String
  | .parse m => m
  | .api m => m
  | .trans m => m
  | .fuelOut => "<nonterminating>"

/-- Config fields consumed by the translator core. -/
structure TConfig where
  maxLinesPerBatch : Nat := 500
  maxRetries : Nat := 3
deriving Repr, DecidableEq

/-- translator.py:343 — how `_translate_batch` classifies a `ParseError`
as truncation: it searches the message text for either marker. -/
def hasTruncMarker (msg : String) : Bool :=
  strContains msg "省略格式" || strContains msg "..."

/-- translator.py:326-336 — rebuild entries from translations, keeping
`index` and `timecode` and replacing `text` (`zip` truncates to the
shorter list, exactly as Python's `zip`). -/
def mkTranslated (entries : List SubtitleEntry) (translations : List String) :
    List SubtitleEntry :=
  List.zipWith (fun (e : SubtitleEntry) t =>
    { index := e.index, timecode := e.timecode, text := t }) entries translations

/-- A suspended `_translate_batch` activation: either at function entry
(`batch`, translator.py:302) or inside the retry loop with
`attemptsLeft` iterations of `for attempt in range(max_retries)` still
to run (`attempt`, translator.py:313). -/
inductive TransFrame where
  | batch (entries : List SubtitleEntry) (cb ca : Option String)
      (retryCount callIdx : Nat)
  | attempt (entries : List SubtitleEntry) (cb ca : Option String)
      (retryCount attemptsLeft callIdx : Nat)
deriving Repr

/-- The channel-call counter of a frame. -/
def TransFrame.callIdx : TransFrame → Nat
  | .batch _ _ _ _ k => k
  | .attempt _ _ _ _ _ k => k

/-- The batch of a frame. -/
def TransFrame.entries : TransFrame → List SubtitleEntry
  | .batch es _ _ _ _ => es
  | .attempt es _ _ _ _ _ => es

/-- One step-indexed run of `_translate_batch` (translator.py:279-366).
`.batch`: if `len(entries) > 100 and retry_count >= 2`, bisect at the
midpoint, re-deriving the context strings from the entries adjacent to
the split (translator.py:303-308); otherwise enter the retry loop.
`.attempt`: perform one channel call; on success parse and rebuild; on a
`ParseError` whose message carries a truncation marker with
`len(entries) > 50`, re-enter `_translate_batch` on the same batch with
`retry_count + 99` (translator.py:343-347); otherwise retry while
attempts remain, else raise.  A raised channel exception retries while
attempts remain, else becomes `APIError` (translator.py:356-363). -/
def transRun (J : String → Except String Json)
    (chan : Nat → Except String String) (cfg : TConfig) :
    Nat → TransFrame → Except TErr (List SubtitleEntry) × Nat
  | 0, f => (.error .fuelOut, f.callIdx)
  | fuel + 1, .batch entries cb ca rc k =>
    if 100 < entries.length ∧ 2 ≤ rc then
      match transRun J chan cfg fuel
          (.batch (entries.take (entries.length / 2)) cb
            ((entries.get? (entries.length / 2)).map (fun e => e.text)) 0 k) with
      | (.error e, k1) => (.error e, k1)
      | (.ok b1, k1) =>
        match transRun J chan cfg fuel
            (.batch (entries.drop (entries.length / 2))
              ((entries.get? (entries.length / 2 - 1)).map (fun e => e.text)) ca 0 k1) with
        | (.error e, k2) => (.error e, k2)
        | (.ok b2, k2) => (.ok (b1 ++ b2), k2)
    else transRun J chan cfg fuel (.attempt entries cb ca rc cfg.maxRetries k)
  | _ + 1, .attempt _ _ _ _ 0 k =>
    -- translator.py:366, reachable only when max_retries = 0
    (.error (.api "翻译失败，原因未知"), k)
  | fuel + 1, .attempt entries cb ca rc (aLeft + 1) k =>
    match chan k with
    | .error e =>
      if 0 < aLeft then transRun J chan cfg fuel (.attempt entries cb ca rc aLeft (k + 1))
      else (.error (.api ("API 调用失败: " ++ e)), k + 1)
    | .ok body =>
      match parseTranslationResponse J (pyStrip body) entries.length with
      | .ok ts => (.ok (mkTranslated entries ts), k + 1)
      | .error msg =>
        if hasTruncMarker msg ∧ 50 < entries.length then
          transRun J chan cfg fuel (.batch entries cb ca (rc + 99) (k + 1))
        else if 0 < aLeft then
          transRun J chan cfg fuel (.attempt entries cb ca rc aLeft (k + 1))
        else (.error (.parse msg), k + 1)

/-- `_translate_batch(entries, cb, ca, retry_count)` from call index `k`. -/
def translateBatch (J : String → Except String Json)
    (chan : Nat → Except String String) (cfg : TConfig) (fuel : Nat)
    (entries : List SubtitleEntry) (cb ca : Option String) (rc k : Nat) :
    Except TErr (List SubtitleEntry) × Nat :=
  transRun J chan cfg fuel (.batch entries cb ca rc k)

/-- translator.py:399-422 — the per-chunk loop of `translate_subtitles`:
translate each planned batch in order, concatenate, and wrap the first
failure in a `TranslationError` naming the batch. -/
def translateChunks (J : String → Except String Json)
    (chan : Nat → Except String String) (cfg : TConfig) (fuel : Nat)
    (totalBatches : Nat) :
    Nat → List PlannedBatch → Nat → Except TErr (List SubtitleEntry) × Nat
  | _, [], k => (.ok [], k)
  | bn, b :: bs, k =>
    match translateBatch J chan cfg fuel b.entries b.contextBefore b.contextAfter 0 k with
    | (.error e, k1) =>
      (.error (.trans ("第 " ++ toString bn ++ "/" ++ toString totalBatches ++
        " 批翻译失败: " ++ e.msg)), k1)
    | (.ok out, k1) =>
      match translateChunks J chan cfg fuel totalBatches (bn + 1) bs k1 with
      | (.error e2, k2) => (.error e2, k2)
      | (.ok rest, k2) => (.ok (out ++ rest), k2)

/-- `translate_subtitles` (translator.py:368-425): empty input returns
`[]`; a document fitting in one batch is translated in one call with any
failure wrapped as `TranslationError("翻译失败: ...")`; otherwise the
chunked loop.  `max_lines_per_batch = 0` makes Python's
`range(0, n, 0)` raise `ValueError`, modelled as an error outcome. -/
def translateSubtitles (J : String → Except String Json)
    (chan : Nat → Except String String) (cfg : TConfig) (fuel : Nat)
    (entries : List SubtitleEntry) : Except TErr (List SubtitleEntry) × Nat :=
  if entries = [] then (.ok [], 0)
  else if entries.length ≤ cfg.maxLinesPerBatch then
    match translateBatch J chan cfg fuel entries none none 0 0 with
    | (.ok out, k) => (.ok out, k)
    | (.error e, k) => (.error (.trans ("翻译失败: " ++ e.msg)), k)
  else if cfg.maxLinesPerBatch = 0 then
    (.error (.trans "range() arg 3 must not be zero"), 0)
  else
    translateChunks J chan cfg fuel
      ((entries.length + cfg.maxLinesPerBatch - 1) / cfg.maxLinesPerBatch) 1
      (planBatches entries cfg.maxLinesPerBatch) 0

/-!  ## Quality auditor (`check_translation_quality`, app.py:578-614)

app.py stores subtitle lines as dicts with the same three fields as
`SubtitleEntry`, so the same structure is reused.  The Python success
rate is a float; it is modelled as the exact rational
`success_count / total`. -/

/-- Python `re.search(r"[぀-ゟ゠-ヿ]", s)` (kana). -/
def containsKana (s : String) : Bool :=
  s.toList.any (fun c =>
    (0x3040 ≤ c.toNat ∧ c.toNat ≤ 0x309f) ∨ (0x30a0 ≤ c.toNat ∧ c.toNat ≤ 0x30ff))

/-- Python `re.search(r"[가-힯]", s)` (hangul). -/
def containsHangul (s : String) : Bool :=
  s.toList.any (fun c => 0xac00 ≤ c.toNat ∧ c.toNat ≤ 0xd7af)

/-- app.py:588-609, the per-line check of `check_translation_quality`:
identical stripped texts fail; else a Japanese source hint fails on kana
in the translation; else a Korean source hint fails on hangul. -/
def lineFails (sourceLang : String) (origText transText : String) : Bool :=
  let o := pyStrip origText
  let t := pyStrip transText
  if o = t then true
  else if sourceLang = "ja" ∨ sourceLang = "jpn" then containsKana t
  else if sourceLang = "ko" ∨ sourceLang = "kor" then containsHangul t
  else false

/-- `check_translation_quality` (app.py:578-614): short-circuit on a
length mismatch, else count per-line passes and failures over the
`zip` of the documents and divide. -/
def checkTranslationQuality (original translated : List SubtitleEntry)
    (sourceLang : String) : Nat × Nat × ℚ :=
  if original.length ≠ translated.length then (0, original.length, 0)
  else
    let counts := (original.zip translated).foldl
      (fun (sf : Nat × Nat) p =>
        if lineFails sourceLang p.1.text p.2.text then (sf.1, sf.2 + 1)
        else (sf.1 + 1, sf.2)) (0, 0)
    let total := original.length
    (counts.1, counts.2, if 0 < total then (counts.1 : ℚ) / total else 0)

/-!  ## app.py batch translation loop (`translate_subtitles`, app.py:616-742)

This is a separate implementation from translator.py: fixed
`BATCH_SIZE = 15` chunks, plain-text `---`-separated responses, a local
`max_retries = 3`, substitution of the original entries when a batch
cannot be translated, and a quality-ratio verdict.  The channel oracle
plays the same role as above.  File reading/writing and the
`TaskDAO.update_task` progress calls are external effects: the parsed
document is taken as input and the success of `save_srt_file` as a
boolean parameter.  `clean_subtitle_punctuation` (called at app.py:681)
is defined nowhere in the repository sources, so it is taken as an
arbitrary text-postprocessing parameter `cleanPunct`. -/

/-- app.py:38. -/
def BATCH_SIZE : Nat := 15

/-- `subs[i:i+n]` chunking via `range(0, len, n)`, fuelled by the list
length so that it stays structurally recursive (each step consumes at
least one element when `0 < n`). -/
def chunkGo (n : Nat) : Nat → List SubtitleEntry → List (List SubtitleEntry)
  | 0, _ => []
  | _, [] => []
  | fuel + 1, a :: l => (a :: l.take (n - 1)) :: chunkGo n fuel (l.drop (n - 1))

/-- The chunks `subs[0:n], subs[n:2n], ...` of app.py:638-639. -/
def chunkList (n : Nat) (l : List SubtitleEntry) : List (List SubtitleEntry) :=
  if n = 0 then [] else chunkGo n l.length l

/-- app.py:674-675 — split the response on `---`, strip each piece, and
keep the nonempty ones. -/
def splitTranslations (body : String) : List String :=
  ((pySplit (pyStrip body) "---").map pyStrip).filter (fun t => t ≠ "")

/-- Outcome of one batch of the app.py loop: either the parsed
translations, or substitution of the original lines. -/
inductive BatchOutcome where
  | translated (texts : List String)
  | substituted
deriving Repr, DecidableEq

/-- app.py:661-705 — the per-batch retry loop (`max_retries = 3`).
On a successful channel call, a response splitting into exactly
`len(batch)` pieces succeeds; any other count substitutes the original
batch immediately (`break` at app.py:694) — it is not retried.  A raised
channel exception is retried while attempts remain and substitutes after
the last one. -/
def appTryBatch (chanA : Nat → Except String String)
    (batch : List SubtitleEntry) : Nat → Nat → BatchOutcome × Nat
  | 0, k => (.substituted, k)   -- loop exhausted without resolution
  | aLeft + 1, k =>
    match chanA k with
    | .ok body =>
      let ts := splitTranslations body
      if ts.length = batch.length then (.translated ts, k + 1)
      else (.substituted, k + 1)
    | .error _ =>
      if 0 < aLeft then appTryBatch chanA batch aLeft (k + 1)
      else (.substituted, k + 1)

/-- app.py:638-708 — the loop over batches: each batch contributes
either its translated lines (original `index`/`timecode`, cleaned text)
or its original lines, in order; substituted batch numbers are
recorded.  Returns (output lines, failed batch numbers, next call
index). -/
def appBatchLoop (chanA : Nat → Except String String)
    (cleanPunct : String → String) :
    List (List SubtitleEntry) → Nat → Nat →
    List SubtitleEntry × List Nat × Nat
  | [], _, k => ([], [], k)
  | b :: bs, bn, k =>
    match appTryBatch chanA b 3 k with
    | (.translated ts, k1) =>
      match appBatchLoop chanA cleanPunct bs (bn + 1) k1 with
      | (restSubs, restFail, k2) =>
        ((b.zip ts).map (fun p =>
          { index := p.1.index, timecode := p.1.timecode,
            text := cleanPunct p.2 }) ++ restSubs, restFail, k2)
    | (.substituted, k1) =>
      match appBatchLoop chanA cleanPunct bs (bn + 1) k1 with
      | (restSubs, restFail, k2) => (b ++ restSubs, bn :: restFail, k2)

/-- `translate_subtitles` of app.py:616-742: empty parse fails; run the
batch loop; audit quality; save (success taken as `saveOk`); return
`True` iff the success rate clears 0.95 or 0.80 (app.py:724-737).
Returns (overall verdict, output lines, failed batch numbers). -/
def appTranslateSubtitles (chanA : Nat → Except String String)
    (cleanPunct : String → String) (saveOk : Bool)
    (subs : List SubtitleEntry) (sourceLang : String) :
    Bool × List SubtitleEntry × List Nat :=
  if subs = [] then (false, [], [])
  else
    match appBatchLoop chanA cleanPunct (chunkList BATCH_SIZE subs) 1 0 with
    | (outSubs, failed, _) =>
      if ¬ saveOk then (false, outSubs, failed)
      else if (19 : ℚ)/20 ≤ (checkTranslationQuality subs outSubs sourceLang).2.2 then
        (true, outSubs, failed)
      else if (4 : ℚ)/5 ≤ (checkTranslationQuality subs outSubs sourceLang).2.2 then
        (true, outSubs, failed)
      else (false, outSubs, failed)

/-!  ## Job store (`src/database/connection.py`, `src/database/task_dao.py`)

The `tasks` table (connection.py:50-60) has
`id INTEGER PRIMARY KEY AUTOINCREMENT`, `file_path TEXT NOT NULL UNIQUE`,
`status`, `progress`, `log`, `created_at`/`updated_at` defaulting to
`CURRENT_TIMESTAMP`.  The table is modelled as a list of rows in rowid
order (AUTOINCREMENT appends monotonically increasing ids; a plain
`SELECT` without `ORDER BY` scans in this order).  Timestamps are
abstract clock ticks supplied by the caller (`CURRENT_TIMESTAMP`). -/

inductive TaskStatus where
  | pending
  | processing
  | completed
  | failed
deriving Repr, DecidableEq

structure TaskRow where
  id : Nat
  file_path : String
  status : TaskStatus
  progress : Int
  log : String
  created_at : Nat
  updated_at : Nat
deriving Repr, DecidableEq

/-- Rows in rowid order. -/
abbrev TaskTable := List TaskRow

/-- The next AUTOINCREMENT id. -/
def nextId (db : TaskTable) : Nat := (db.map (fun r => r.id)).foldr max 0 + 1

/-- `TaskDAO.add_task` (task_dao.py:18-43):
`INSERT INTO tasks (file_path, status, log) VALUES (?, 'pending', '准备中')`.
The `UNIQUE` constraint on `file_path` makes SQLite raise
`sqlite3.IntegrityError` when any row with the same path already exists,
answered with `(False, "任务已存在")` and no change; otherwise the row is
appended with the DDL defaults (`progress = 0`, timestamps = now). -/
def addTask (db : TaskTable) (now : Nat) (fp : String) :
    (Bool × String) × TaskTable :=
  if db.any (fun r => r.file_path = fp) then ((false, "任务已存在"), db)
  else
    ((true, "任务已添加"),
      db ++ [{ id := nextId db, file_path := fp, status := .pending,
               progress := 0, log := "准备中", created_at := now,
               updated_at := now }])

/-- `TaskDAO.get_pending_task` (task_dao.py:81-109):
`SELECT ... FROM tasks WHERE status='pending' LIMIT 1` — no `ORDER BY`;
SQLite's plain table scan returns the first matching row in rowid
order. -/
def getPendingTask (db : TaskTable) : Option TaskRow :=
  (db.filter (fun r => r.status = .pending)).head?

/-- `TaskDAO.reset_task` (task_dao.py:227-247):
`UPDATE tasks SET status='pending', progress=0, log='重试中...',
updated_at=CURRENT_TIMESTAMP WHERE id=?` — note that the `WHERE` clause
constrains only the id, not the current status. -/
def resetTask (db : TaskTable) (now : Nat) (taskId : Nat) : TaskTable :=
  db.map (fun r =>
    if r.id = taskId then
      { r with status := .pending, progress := 0, log := "重试中...",
               updated_at := now }
    else r)

/-!  ## Specification-side definitions

These two definitions are written from the specification's words, not
from the code; they exist to be compared against the code-derived
definitions above. -/

/-- Verdict of the audit's per-line check as the spec words it. -/
inductive SpecVerdict where
  | untranslated
  | leakage
  | accepted
deriving Repr, DecidableEq

/-- Per-line classification as the spec states it, first match wins:
(a) trimmed-equal texts are untranslated; (b) Japanese hint and kana in
the translation leak; (c) Korean hint and hangul leak; (d) else pass. -/
def spec_classifyLine (hint srcText trText : String) : SpecVerdict :=
  if pyStrip trText = pyStrip srcText then .untranslated
  else if (hint = "ja" ∨ hint = "jpn") ∧ containsKana (pyStrip trText) then .leakage
  else if (hint = "ko" ∨ hint = "kor") ∧ containsHangul (pyStrip trText) then .leakage
  else .accepted

/-- Scanner for the spec phrase "contains an ellipsis token outside of a
quoted string value": walk the text tracking whether the position is
inside a double-quoted JSON string (honouring backslash escapes) and
look for three consecutive dots outside the quotes. -/
def spec_scanEllipsis : List Char → Bool → Nat → Bool
  | [], _, _ => false
  | c :: cs, true, _ =>
    if c = '\\' then
      match cs with
      | [] => false
      | _ :: cs2 => spec_scanEllipsis cs2 true 0
    else if c = '"' then spec_scanEllipsis cs false 0
    else spec_scanEllipsis cs true 0
  | c :: cs, false, run =>
    if c = '.' then (decide (3 ≤ run + 1)) || spec_scanEllipsis cs false (run + 1)
    else if c = '"' then spec_scanEllipsis cs true 0
    else spec_scanEllipsis cs false 0

/-- The spec-side truncation trigger. -/
def spec_ellipsisOutsideQuotes (s : String) : Bool :=
  spec_scanEllipsis s.toList false 0

/-!  ## Concrete fixtures used by counterexamples and witnesses -/

/-- A dummy subtitle entry with ordinal `i+1` and text `s<i>`. -/
def mkEnt (i : Nat) : SubtitleEntry :=
  { index := toString (i + 1), timecode := "00:00:00,000 --> 00:00:01,000",
    text := "s" ++ toString i }

/-- A 51-entry batch (above the 50-line truncation floor, at or below
the 100-line bisection guard). -/
def ents51 : List SubtitleEntry := (List.range 51).map mkEnt

/-- A well-formed parsed response with `n` items
`{"line": i+1, "translation": "t<i>"}`. -/
def goodItems (n : Nat) : List Json :=
  (List.range n).map (fun i =>
    .obj [("line", .num (Int.ofNat i + 1)), ("translation", .str ("t" ++ toString i))])

/-- A `json.loads` oracle that parses the marker body `[R]` into 51 good
items and rejects everything else. -/
def oracleC4 : String → Except String Json :=
  fun s => if s = "[R]" then .ok (.arr (goodItems 51))
    else .error "Expecting value: line 1 column 1 (char 0)"

/-- A channel whose first call truncates (bare ellipsis) and whose later
calls answer with the 51-item body. -/
def chanC4 : Nat → Except String String :=
  fun k => if k = 0 then .ok "..." else .ok "[R]"

/-- The translations delivered by `oracleC4`/`chanC4`. -/
def textsC4 : List String := (List.range 51).map (fun i => "t" ++ toString i)

/-- A two-line document for the app.py loop fixtures. -/
def subs2 : List SubtitleEntry := [mkEnt 0, mkEnt 1]

/-- A channel whose first call parses to a single piece (count mismatch
for a two-line batch) and whose later calls would parse correctly. -/
def chanC6 : Nat → Except String String :=
  fun k => if k = 0 then .ok "X" else .ok "A\n---\nB"

/-- A completed job row. -/
def rowCompleted : TaskRow :=
  { id := 1, file_path := "/media/v.mp4", status := .completed,
    progress := 100, log := "完成", created_at := 10, updated_at := 20 }

/-- The C3 counterexample response: the only ellipsis sits inside the
quoted string value `"so..."`. -/
def respEllipsisInString : String :=
  "[\x7b\"line\": 1, \"translation\": \"so...\"\x7d]"

/-- A `json.loads` oracle parsing the marker body `[R]` into `n` good
items. -/
def oracleGood (n : Nat) : String → Except String Json :=
  fun s => if s = "[R]" then .ok (.arr (goodItems n))
    else .error "Expecting value: line 1 column 1 (char 0)"

/-- A channel that always answers with the marker body. -/
def chanGood : Nat → Except String String := fun _ => .ok "[R]"

/-- A channel whose every call raises. -/
def chanFail : Nat → Except String String := fun _ => .error "connection refused"

/-- Two pending rows enqueued at successive times. -/
def pendingRowA : TaskRow :=
  { id := 1, file_path := "/media/a.mp4", status := .pending,
    progress := 0, log := "准备中", created_at := 5, updated_at := 5 }

def pendingRowB : TaskRow :=
  { id := 2, file_path := "/media/b.mp4", status := .pending,
    progress := 0, log := "准备中", created_at := 7, updated_at := 7 }

/-- The audit scenario line: a kana-only text left identical by the
translator. -/
def entKonnichiwa : SubtitleEntry :=
  { index := "1", timecode := "00:00:00,000 --> 00:00:01,000",
    text := "こんにちは" }

/-- Per-position frame preservation between a source entry and its
translated counterpart: identity fields survive, only the text may
change. -/
def keepsFrame (a b : SubtitleEntry) : Prop :=
  b.index = a.index ∧ b.timecode = a.timecode

/-!  # Theorems

First a stock of helper lemmas about the embedded definitions, then one
theorem per claim (with witnesses and counterexamples). -/

lemma planLoop_nil (m : Nat) (p : Option String) : planLoop m p [] = [] := by
  unfold planLoop
  split <;> rfl

lemma planLoop_cons (m : Nat) (hm : 0 < m) (p : Option String)
    (rest : List SubtitleEntry) (h : rest ≠ []) :
    planLoop m p rest =
      { entries := rest.take m, contextBefore := p,
        contextAfter := (rest.drop m).head?.map (fun x => x.text) } ::
      planLoop m ((rest.take m).getLast?.map (fun x => x.text)) (rest.drop m) := by
  obtain ⟨e, rs, rfl⟩ := List.exists_cons_of_ne_nil h
  conv_lhs => rw [planLoop.eq_def]
  rw [if_neg (Nat.pos_iff_ne_zero.mp hm)]

lemma planLoop_flatten (m : Nat) (hm : 0 < m) :
    ∀ (n : Nat) (rest : List SubtitleEntry), rest.length ≤ n → ∀ p,
      ((planLoop m p rest).map PlannedBatch.entries).flatten = rest := by
  intro n
  induction n with
  | zero =>
    intro rest hlen p
    rw [List.length_eq_zero.mp (Nat.le_zero.mp hlen), planLoop_nil]
    rfl
  | succ n ih =>
    intro rest hlen p
    rcases eq_or_ne rest [] with rfl | hne
    · rw [planLoop_nil]; rfl
    · rw [planLoop_cons m hm p rest hne]
      have hdrop : (rest.drop m).length ≤ n := by
        have := List.length_pos.mpr hne
        simp only [List.length_drop]
        omega
      simp only [List.map_cons, List.flatten_cons, ih (rest.drop m) hdrop]
      exact List.take_append_drop m rest

lemma planLoop_getElem (m : Nat) (hm : 0 < m) :
    ∀ (n : Nat) (rest : List SubtitleEntry), rest.length ≤ n → ∀ p k,
      (planLoop m p rest)[k]? =
        if k * m < rest.length then
          some { entries := (rest.drop (k * m)).take m,
                 contextBefore :=
                   if k = 0 then p
                   else ((rest.drop (k * m - m)).take m).getLast?.map (fun x => x.text),
                 contextAfter := (rest.drop (k * m + m)).head?.map (fun x => x.text) }
        else none := by
  intro n
  induction n with
  | zero =>
    intro rest hlen p k
    rw [List.length_eq_zero.mp (Nat.le_zero.mp hlen), planLoop_nil]
    simp
  | succ n ih =>
    intro rest hlen p k
    rcases eq_or_ne rest [] with rfl | hne
    · rw [planLoop_nil]; simp
    · rw [planLoop_cons m hm p rest hne]
      have hpos : 0 < rest.length := List.length_pos.mpr hne
      have hdrop : (rest.drop m).length ≤ n := by
        simp only [List.length_drop]; omega
      match k with
      | 0 => simp [hpos]
      | k + 1 =>
        have hsm : (k + 1) * m = k * m + m := Nat.succ_mul k m
        rw [List.getElem?_cons_succ, ih (rest.drop m) hdrop _ k, List.length_drop]
        by_cases hk : k * m < rest.length - m
        · have hk' : (k + 1) * m < rest.length := by omega
          rw [if_pos hk, if_pos hk']
          have hdd1 : (rest.drop m).drop (k * m) = rest.drop ((k + 1) * m) := by
            rw [List.drop_drop]
            congr 1
            omega
          have hdd3 : (rest.drop m).drop (k * m + m) = rest.drop ((k + 1) * m + m) := by
            rw [List.drop_drop]
            congr 1
            omega
          rw [hdd1, hdd3]
          match k with
          | 0 =>
            have h10 : 1 * m - m = 0 := by omega
            simp [h10]
          | k + 1 =>
            have hk1 : k + 1 ≠ 0 := Nat.succ_ne_zero k
            rw [if_neg hk1, if_neg (Nat.succ_ne_zero (k + 1))]
            have hsm' : (k + 1) * m = k * m + m := Nat.succ_mul k m
            have hdd2 : (rest.drop m).drop ((k + 1) * m - m) =
                rest.drop ((k + 1 + 1) * m - m) := by
              rw [List.drop_drop]
              have h2 : (k + 1 + 1) * m = (k + 1) * m + m := Nat.succ_mul (k + 1) m
              congr 1
              omega
            rw [hdd2]
        · have hk' : ¬ (k + 1) * m < rest.length := by omega
          rw [if_neg hk, if_neg hk']

lemma chunk_getLast (entries : List SubtitleEntry) (m s : Nat)
    (hm : 0 < m) (hk : s + m ≤ entries.length) :
    ((entries.drop s).take m).getLast? = entries[s + m - 1]? := by
  have hlen : ((entries.drop s).take m).length = m := by
    simp only [List.length_take, List.length_drop]
    omega
  rw [List.getLast?_eq_getElem?, hlen, List.getElem?_take]
  rw [if_pos (by omega), List.getElem?_drop]
  congr 1
  omega

lemma drop_head_getElem (entries : List SubtitleEntry) (s : Nat) :
    (entries.drop s).head? = entries[s]? := by
  rw [List.head?_eq_getElem?, List.getElem?_drop]
  congr 1

lemma planBatches_multi (entries : List SubtitleEntry) (maxBatch : Nat)
    (hgt : maxBatch < entries.length) :
    planBatches entries maxBatch = planLoop maxBatch none entries := by
  have hne : entries ≠ [] := by
    intro h
    rw [h] at hgt
    simp at hgt
  rw [planBatches, if_neg hne, if_neg (by omega)]

lemma planBatches_getElem (entries : List SubtitleEntry) (maxBatch : Nat)
    (hm : 1 ≤ maxBatch) (hgt : maxBatch < entries.length) (k : Nat) :
    (planBatches entries maxBatch)[k]? =
      if k * maxBatch < entries.length then
        some { entries := (entries.drop (k * maxBatch)).take maxBatch,
               contextBefore :=
                 if k = 0 then none
                 else (entries[k * maxBatch - 1]?).map SubtitleEntry.text,
               contextAfter :=
                 if k * maxBatch + maxBatch < entries.length then
                   (entries[k * maxBatch + maxBatch]?).map SubtitleEntry.text
                 else none }
      else none := by
  rw [planBatches_multi entries maxBatch hgt,
    planLoop_getElem maxBatch hm entries.length entries le_rfl none k]
  by_cases hk : k * maxBatch < entries.length
  · rw [if_pos hk, if_pos hk]
    congr 1
    congr 1
    · -- contextBefore
      match k with
      | 0 => rfl
      | k + 1 =>
        rw [if_neg (Nat.succ_ne_zero k), if_neg (Nat.succ_ne_zero k)]
        have hmul : (k + 1) * maxBatch = k * maxBatch + maxBatch :=
          Nat.succ_mul k maxBatch
        have hle : ((k + 1) * maxBatch - maxBatch) + maxBatch ≤ entries.length := by
          omega
        rw [chunk_getLast entries maxBatch _ hm hle]
        congr 2
        omega
    · -- contextAfter
      rw [drop_head_getElem]
      by_cases hafter : k * maxBatch + maxBatch < entries.length
      · rw [if_pos hafter]
      · rw [if_neg hafter, List.getElem?_eq_none_iff.mpr (by omega)]
        rfl
  · rw [if_neg hk, if_neg hk]

/-- C1 (amended).  For every document and every `maxLinesPerBatch ≥ 1`,
the batch planning of `translate_subtitles` (translator.py:381-425)
partitions the entries into contiguous batches in original order with no
gaps, overlaps or reordering (concatenating the batches reconstructs the
document); an empty document yields an empty plan (no batch at all); a
nonempty document with `len ≤ maxLinesPerBatch` yields exactly one batch
with no context strings; in a multi-batch plan batch `k` holds entries
`[k*max, k*max+max)`, every batch after the first carries
`contextBefore` = text of the entry at index `start-1`, and every batch
with `end < len` carries `contextAfter` = text of the entry at index
`end`; every batch except the last has exactly `maxLinesPerBatch`
entries and every batch is nonempty and no larger. -/
theorem C1_batch_planning (entries : List SubtitleEntry) (maxBatch : Nat)
    (hm : 1 ≤ maxBatch) :
    (((planBatches entries maxBatch).map PlannedBatch.entries).flatten = entries)
    ∧ (planBatches [] maxBatch = [])
    ∧ (entries ≠ [] → entries.length ≤ maxBatch →
        planBatches entries maxBatch =
          [{ entries := entries, contextBefore := none, contextAfter := none }])
    ∧ (maxBatch < entries.length → ∀ k,
        (planBatches entries maxBatch)[k]? =
          if k * maxBatch < entries.length then
            some { entries := (entries.drop (k * maxBatch)).take maxBatch,
                   contextBefore :=
                     if k = 0 then none
                     else (entries[k * maxBatch - 1]?).map SubtitleEntry.text,
                   contextAfter :=
                     if k * maxBatch + maxBatch < entries.length then
                       (entries[k * maxBatch + maxBatch]?).map SubtitleEntry.text
                     else none }
          else none)
    ∧ (∀ k, k + 1 < (planBatches entries maxBatch).length →
        ((planBatches entries maxBatch)[k]?.map (fun b => b.entries.length)) =
          some maxBatch)
    ∧ (∀ b ∈ planBatches entries maxBatch,
        b.entries ≠ [] ∧ b.entries.length ≤ maxBatch) := by
  refine ⟨?_, by rw [planBatches, if_pos rfl], ?_, ?_, ?_, ?_⟩
  · -- reconstruction
    rcases eq_or_ne entries [] with rfl | hne
    · rw [planBatches, if_pos rfl]
      rfl
    · by_cases hle : entries.length ≤ maxBatch
      · rw [planBatches, if_neg hne, if_pos hle]
        simp
      · rw [planBatches_multi entries maxBatch (by omega)]
        exact planLoop_flatten maxBatch hm entries.length entries le_rfl none
  · -- single batch
    intro hne hle
    rw [planBatches, if_neg hne, if_pos hle]
  · -- multi-batch characterisation
    intro hgt
    exact planBatches_getElem entries maxBatch hm hgt
  · -- all batches except the last are full
    intro k hk
    rcases eq_or_ne entries [] with rfl | hne
    · rw [planBatches, if_pos rfl] at hk
      simp only [List.length_nil] at hk
      omega
    · by_cases hle : entries.length ≤ maxBatch
      · rw [planBatches, if_neg hne, if_pos hle] at hk
        simp only [List.length_cons, List.length_nil] at hk
        omega
      · have hgt : maxBatch < entries.length := by omega
        have hsucc := planBatches_getElem entries maxBatch hm hgt (k + 1)
        have hksome : (planBatches entries maxBatch)[k + 1]?.isSome := by
          rw [List.getElem?_eq_getElem hk]
          rfl
        have hkin : (k + 1) * maxBatch < entries.length := by
          by_contra hcon
          rw [hsucc, if_neg hcon] at hksome
          simp at hksome
        have hmul : (k + 1) * maxBatch = k * maxBatch + maxBatch :=
          Nat.succ_mul k maxBatch
        rw [planBatches_getElem entries maxBatch hm hgt k,
          if_pos (by omega)]
        simp only [Option.map_some', Option.some.injEq]
        simp only [List.length_take, List.length_drop]
        omega
  · -- every batch nonempty and bounded
    intro b hb
    rcases eq_or_ne entries [] with rfl | hne
    · rw [planBatches, if_pos rfl] at hb
      simp at hb
    · by_cases hle : entries.length ≤ maxBatch
      · rw [planBatches, if_neg hne, if_pos hle] at hb
        simp at hb
        subst hb
        exact ⟨hne, hle⟩
      · have hgt : maxBatch < entries.length := by omega
        obtain ⟨k, hkk⟩ := List.mem_iff_getElem?.mp hb
        rw [planBatches_getElem entries maxBatch hm hgt k] at hkk
        by_cases hkin : k * maxBatch < entries.length
        · rw [if_pos hkin] at hkk
          obtain rfl := (Option.some.injEq _ _).mp hkk
          refine ⟨?_, ?_⟩
          · show (entries.drop (k * maxBatch)).take maxBatch ≠ []
            intro hnil
            have hlen := congrArg List.length hnil
            simp only [List.length_take, List.length_drop, List.length_nil] at hlen
            omega
          · show ((entries.drop (k * maxBatch)).take maxBatch).length ≤ maxBatch
            simp only [List.length_take, List.length_drop]
            omega
        · rw [if_neg hkin] at hkk
          exact absurd hkk (by simp)

/-- C1 counterexample to the claim as frozen: for the empty document and
`maxLinesPerBatch = 1` we have `len(D) = 0 ≤ 1`, yet the planner emits
no batch at all rather than "exactly one batch". -/
theorem C1_empty_doc_counterexample :
    planBatches [] 1 = [] ∧ (planBatches [] 1).length ≠ 1 := by
  constructor
  · rw [planBatches, if_pos rfl]
  · rw [planBatches, if_pos rfl]
    simp

/-- C1 witness: the amended theorem applied to a concrete 5-entry
document with `maxLinesPerBatch = 2`. -/
theorem C1_batch_planning_witness :
    1 ≤ 2 ∧
      (((planBatches ((List.range 5).map mkEnt) 2).map PlannedBatch.entries).flatten
        = (List.range 5).map mkEnt) :=
  ⟨by decide, (C1_batch_planning ((List.range 5).map mkEnt) 2 (by decide)).1⟩

/-- C7: enqueueing a path that already exists in the store (in any
state) is rejected as a duplicate and leaves the store unchanged;
enqueueing a fresh path twice returns success then duplicate-rejection,
after which the store holds exactly one row for that path — uniqueness
is on `file_path`, not on the job id. -/
theorem C7_duplicate_enqueue (db : TaskTable) (now now' : Nat) (fp : String) :
    (db.any (fun r => r.file_path = fp) = true →
      addTask db now fp = ((false, "任务已存在"), db))
    ∧ (db.any (fun r => r.file_path = fp) = false →
        (addTask db now fp).1 = (true, "任务已添加")
        ∧ (addTask (addTask db now fp).2 now' fp).1 = (false, "任务已存在")
        ∧ (addTask (addTask db now fp).2 now' fp).2 = (addTask db now fp).2
        ∧ ((addTask (addTask db now fp).2 now' fp).2.filter
            (fun r => r.file_path = fp)).length = 1) := by
  constructor
  · intro h
    rw [addTask, if_pos h]
  · intro h
    have hnot : ¬ (db.any (fun r => r.file_path = fp) = true) := by
      rw [h]
      exact Bool.false_ne_true
    have h1 : (addTask db now fp).1 = (true, "任务已添加") := by
      rw [addTask, if_neg hnot]
    have hsnd : ((addTask db now fp).2).any (fun r => r.file_path = fp) = true := by
      rw [addTask, if_neg hnot, List.any_append]
      simp
    have h2 : addTask (addTask db now fp).2 now' fp =
        ((false, "任务已存在"), (addTask db now fp).2) := by
      rw [addTask, if_pos hsnd]
    refine ⟨h1, by rw [h2], by rw [h2], ?_⟩
    rw [h2, addTask, if_neg hnot, List.filter_append, List.length_append]
    have hdb : List.filter (fun r => decide (r.file_path = fp)) db = [] := by
      rw [List.filter_eq_nil_iff]
      intro a ha
      have := List.any_eq_false.mp h a ha
      simpa using this
    rw [hdb]
    simp

/-- C7 witness: the fresh-then-duplicate scenario on the empty store. -/
theorem C7_duplicate_enqueue_witness :
    ([] : TaskTable).any (fun r => r.file_path = "/media/a.mp4") = false
    ∧ (addTask [] 0 "/media/a.mp4").1 = (true, "任务已添加") :=
  ⟨by decide, ((C7_duplicate_enqueue [] 0 1 "/media/a.mp4").2 (by decide)).1⟩

/-- C8 (amended): `reset_task` unconditionally rewrites the row with the
given id to `pending` with `progress = 0` and the fixed retrying marker
(`WHERE` constrains only the id), leaving every other row unchanged; in
particular the `failed → pending` retry transition of the claim holds,
but so does e.g. `completed → pending` — the only-from-`failed`
restriction lives in the UI caller, not in the store. -/
theorem C8_reset_transition (db : TaskTable) (taskId now : Nat) :
    (∀ r ∈ db, r.id = taskId →
      { r with status := TaskStatus.pending, progress := 0, log := "重试中...",
               updated_at := now } ∈ resetTask db now taskId)
    ∧ (∀ r ∈ db, r.id ≠ taskId → r ∈ resetTask db now taskId)
    ∧ (resetTask db now taskId).length = db.length := by
  refine ⟨?_, ?_, List.length_map db _⟩
  · intro r hr hid
    rw [resetTask]
    refine List.mem_map.mpr ⟨r, hr, ?_⟩
    rw [if_pos hid]
  · intro r hr hid
    rw [resetTask]
    refine List.mem_map.mpr ⟨r, hr, ?_⟩
    rw [if_neg hid]

/-- C8 counterexample to the claim as frozen: `reset_task` applied to a
job in state `completed` also moves it to `pending` (progress 0, retry
marker) — the state machine does admit `completed → pending` via reset,
contradicting "from no other state does reset introduce a transition
into pending". -/
theorem C8_reset_from_completed_counterexample :
    rowCompleted.status = TaskStatus.completed
    ∧ resetTask [rowCompleted] 30 1 =
        [{ id := 1, file_path := "/media/v.mp4", status := TaskStatus.pending,
           progress := 0, log := "重试中...", created_at := 10,
           updated_at := 30 }] := by
  constructor
  · rfl
  · rfl

/-- C8 witness: the amended theorem applied to the concrete
one-completed-row store. -/
theorem C8_reset_transition_witness :
    ({ rowCompleted with status := TaskStatus.pending, progress := 0,
                         log := "重试中...", updated_at := 30 } : TaskRow) ∈
      resetTask [rowCompleted] 30 1 :=
  (C8_reset_transition [rowCompleted] 1 30).1 rowCompleted (by decide) (by decide)

/-- C9: when the store's rows (in rowid scan order) carry non-decreasing
`created_at` timestamps — which is how `CURRENT_TIMESTAMP` inserts with
`AUTOINCREMENT` ids behave — the claim query returns a pending job of
minimal `created_at`, and it is the first pending row in scan order, so
a job reset from `failed` (which keeps its early rowid and `created_at`)
is claimed before any newly-enqueued pending job of equal or later
`created_at`. -/
theorem C9_fifo_claim (db : TaskTable) (t : TaskRow)
    (hsort : List.Pairwise (fun a b => a.created_at ≤ b.created_at) db)
    (hclaim : getPendingTask db = some t) :
    t.status = TaskStatus.pending
    ∧ (∀ u ∈ db, u.status = TaskStatus.pending → t.created_at ≤ u.created_at)
    ∧ ∃ pre post, db = pre ++ t :: post
        ∧ ∀ u ∈ pre, u.status ≠ TaskStatus.pending := by
  rw [getPendingTask] at hclaim
  match hfil : db.filter (fun r => r.status = TaskStatus.pending) with
  | [] =>
    rw [hfil] at hclaim
    exact absurd hclaim (by simp)
  | a :: rest =>
    rw [hfil] at hclaim
    have ha : a = t := by
      simpa using hclaim
    subst ha
    obtain ⟨l1, l2, hdb, hl1, hpa, hrest⟩ := List.filter_eq_cons_iff.mp hfil
    refine ⟨by simpa using hpa, ?_, l1, l2, hdb, ?_⟩
    · intro u hu hup
      have humem : u ∈ a :: rest := by
        rw [← hfil]
        rw [List.mem_filter]
        exact ⟨hu, by simpa using hup⟩
      rcases List.mem_cons.mp humem with rfl | hur
      · exact le_refl _
      · have hpw := hsort.filter (fun r => decide (r.status = TaskStatus.pending))
        rw [hfil] at hpw
        exact (List.pairwise_cons.mp hpw).1 u hur
    · intro u hu
      have := hl1 u hu
      simpa using this

/-- C9 witness: on a store of two pending rows created at times 5 and 7,
the claim returns the earlier one. -/
theorem C9_fifo_claim_witness :
    (getPendingTask [pendingRowA, pendingRowB] = some pendingRowA)
    ∧ pendingRowA.status = TaskStatus.pending :=
  ⟨by decide,
    (C9_fifo_claim [pendingRowA, pendingRowB] pendingRowA
      (by simp [pendingRowA, pendingRowB, List.pairwise_cons])
      (by decide)).1⟩

lemma lineFails_spec (lang o t : String) :
    lineFails lang o t = true ↔ spec_classifyLine lang o t ≠ SpecVerdict.accepted := by
  simp only [lineFails, spec_classifyLine]
  by_cases h1 : pyStrip o = pyStrip t
  · rw [if_pos h1, if_pos h1.symm]
    simp
  · rw [if_neg h1,
      if_neg (show ¬ (pyStrip t = pyStrip o) from fun hh => h1 hh.symm)]
    by_cases hja : lang = "ja" ∨ lang = "jpn"
    · rw [if_pos hja]
      by_cases hk : containsKana (pyStrip t) = true
      · rw [if_pos (show (lang = "ja" ∨ lang = "jpn")
            ∧ containsKana (pyStrip t) = true from ⟨hja, hk⟩)]
        simp [hk]
      · have hko : ¬ ((lang = "ko" ∨ lang = "kor")
            ∧ containsHangul (pyStrip t) = true) := by
          rintro ⟨hc, -⟩
          rcases hja with rfl | rfl <;> rcases hc with hc | hc <;>
            exact absurd hc (by decide)
        rw [if_neg (show ¬ ((lang = "ja" ∨ lang = "jpn")
              ∧ containsKana (pyStrip t) = true) from fun hh => hk hh.2),
          if_neg hko]
        simp [hk]
    · rw [if_neg hja,
        if_neg (show ¬ ((lang = "ja" ∨ lang = "jpn")
          ∧ containsKana (pyStrip t) = true) from fun hh => hja hh.1)]
      by_cases hko : lang = "ko" ∨ lang = "kor"
      · rw [if_pos hko]
        by_cases hh : containsHangul (pyStrip t) = true
        · rw [if_pos (show (lang = "ko" ∨ lang = "kor")
              ∧ containsHangul (pyStrip t) = true from ⟨hko, hh⟩)]
          simp [hh]
        · rw [if_neg (show ¬ ((lang = "ko" ∨ lang = "kor")
              ∧ containsHangul (pyStrip t) = true) from fun x => hh x.2)]
          simp [hh]
      · rw [if_neg hko,
          if_neg (show ¬ ((lang = "ko" ∨ lang = "kor")
            ∧ containsHangul (pyStrip t) = true) from fun x => hko x.1)]
        simp

lemma countQuality (lang : String) (l : List (SubtitleEntry × SubtitleEntry)) :
    ∀ (a b : Nat),
      l.foldl (fun (sf : Nat × Nat) p =>
        if lineFails lang p.1.text p.2.text then (sf.1, sf.2 + 1)
        else (sf.1 + 1, sf.2)) (a, b) =
      (a + l.countP
         (fun p => decide (spec_classifyLine lang p.1.text p.2.text = SpecVerdict.accepted)),
       b + l.countP
         (fun p => !(decide (spec_classifyLine lang p.1.text p.2.text = SpecVerdict.accepted)))) := by
  induction l with
  | nil =>
    intro a b
    simp
  | cons x xs ih =>
    intro a b
    rw [List.foldl_cons]
    by_cases hx : lineFails lang x.1.text x.2.text = true
    · have hxd : decide (spec_classifyLine lang x.1.text x.2.text
          = SpecVerdict.accepted) = false := by
        rw [decide_eq_false_iff_not]
        exact (lineFails_spec lang x.1.text x.2.text).mp hx
      rw [if_pos hx, ih]
      rw [Prod.mk.injEq]
      refine ⟨?_, ?_⟩ <;> simp [List.countP_cons, hxd] <;> omega
    · have hxd : decide (spec_classifyLine lang x.1.text x.2.text
          = SpecVerdict.accepted) = true := by
        rw [decide_eq_true_iff]
        by_contra hcon
        exact hx ((lineFails_spec lang x.1.text x.2.text).mpr hcon)
      rw [if_neg hx, ih]
      rw [Prod.mk.injEq]
      refine ⟨?_, ?_⟩ <;> simp [List.countP_cons, hxd] <;> omega

/-- C5: `check_translation_quality` returns `(0, len(source), 0.0)`
whenever the document lengths differ; on equal lengths it counts each
aligned pair by the spec's first-match-wins per-line classification —
(a) trimmed-equal fails as untranslated, (b) else a Japanese hint with
kana in the translation fails, (c) else a Korean hint with hangul fails,
(d) else success — returning `(successCount, failCount,
successCount/total)`; and on the identical kana line "こんにちは" it
counts the line as failed under rule (a) even though the line also
contains kana. -/
theorem C5_quality_audit (src tr : List SubtitleEntry) (lang : String) :
    (src.length ≠ tr.length →
      checkTranslationQuality src tr lang = (0, src.length, 0))
    ∧ (src.length = tr.length →
        checkTranslationQuality src tr lang =
          ((src.zip tr).countP
             (fun p => decide (spec_classifyLine lang p.1.text p.2.text
               = SpecVerdict.accepted)),
           (src.zip tr).countP
             (fun p => !(decide (spec_classifyLine lang p.1.text p.2.text
               = SpecVerdict.accepted))),
           if 0 < src.length then
             ((src.zip tr).countP
               (fun p => decide (spec_classifyLine lang p.1.text p.2.text
                 = SpecVerdict.accepted)) : ℚ) / src.length
           else 0))
    ∧ checkTranslationQuality [entKonnichiwa] [entKonnichiwa] "ja" = (0, 1, 0)
    ∧ spec_classifyLine "ja" entKonnichiwa.text entKonnichiwa.text
        = SpecVerdict.untranslated
    ∧ containsKana entKonnichiwa.text = true := by
  refine ⟨?_, ?_, ?_, by decide, by decide⟩
  · intro h
    rw [checkTranslationQuality, if_pos h]
  · intro h
    rw [checkTranslationQuality, if_neg (by omega)]
    rw [countQuality lang (src.zip tr) 0 0]
    simp
  · have hc : ([entKonnichiwa].zip [entKonnichiwa]).foldl
        (fun (sf : Nat × Nat) p =>
          if lineFails "ja" p.1.text p.2.text then (sf.1, sf.2 + 1)
          else (sf.1 + 1, sf.2)) (0, 0) = (0, 1) := by decide
    rw [checkTranslationQuality, if_neg (by decide)]
    simp only [hc]
    norm_num

/-- C5 witness: the length-mismatch short-circuit at a concrete input. -/
theorem C5_quality_audit_witness :
    ([entKonnichiwa].length ≠ ([] : List SubtitleEntry).length)
    ∧ checkTranslationQuality [entKonnichiwa] [] "ja" = (0, 1, 0) :=
  ⟨by decide, (C5_quality_audit [entKonnichiwa] [] "ja").1 (by decide)⟩

lemma hasKey_false_getKey (fields : List (String × Json)) (k : String)
    (h : Json.hasKey fields k = false) : Json.getKey fields k = none := by
  have hfind : fields.reverse.find? (fun p => p.1 = k) = none := by
    rw [List.find?_eq_none]
    intro p hp
    have := List.any_eq_false.mp h p (List.mem_reverse.mp hp)
    simpa using this
  rw [Json.getKey, hfind]
  rfl

lemma extractItem_no_line (i : Nat) (fields : List (String × Json))
    (ht : Json.hasKey fields "translation" = true)
    (hl : Json.hasKey fields "line" = false) :
    extractItem i (.obj fields)
      = .ok (pyStrip ((Json.getKey fields "translation").getD .null).pyStr) := by
  have hnone := hasKey_false_getKey fields "line" hl
  simp [extractItem, ht, hnone, Json.pyEqInt]

lemma extractItems_all_ok :
    ∀ (i : Nat) (items : List Json),
      (∀ item ∈ items, ∃ fs, item = Json.obj fs
        ∧ Json.hasKey fs "translation" = true ∧ Json.hasKey fs "line" = false) →
      ∃ ts, extractItems i items = .ok ts ∧ ts.length = items.length := by
  intro i items
  induction items generalizing i with
  | nil =>
    intro _
    exact ⟨[], rfl, rfl⟩
  | cons item rest ih =>
    intro hall
    obtain ⟨fs, rfl, ht, hl⟩ := hall item (List.mem_cons_self item rest)
    obtain ⟨ts, hts, hlen⟩ := ih (i + 1) (fun x hx => hall x (List.mem_cons_of_mem _ hx))
    refine ⟨pyStrip ((Json.getKey fs "translation").getD .null).pyStr :: ts, ?_, ?_⟩
    · rw [extractItems, extractItem_no_line i fs ht hl, hts]
    · simp [hlen]

/-- C10: an array item that is a dict carrying a `translation` field but
no `line` field is accepted, its position defaulting to the 1-based
array order (and a whole response of such items decodes successfully);
a position-mismatch rejection happens only when the `line` field is
present and its value differs (under Python equality) from the 1-based
order — when it is present and equal, the item is accepted. -/
theorem C10_line_defaulting (i : Nat) (fields : List (String × Json))
    (ht : Json.hasKey fields "translation" = true) :
    (Json.hasKey fields "line" = false →
      extractItem i (.obj fields)
        = .ok (pyStrip ((Json.getKey fields "translation").getD .null).pyStr))
    ∧ (∀ v, Json.getKey fields "line" = some v →
        v.pyEqInt (Int.ofNat i + 1) = false →
        extractItem i (.obj fields) = .error (lineMismatchMsg i v))
    ∧ (∀ v, Json.getKey fields "line" = some v →
        v.pyEqInt (Int.ofNat i + 1) = true →
        extractItem i (.obj fields)
          = .ok (pyStrip ((Json.getKey fields "translation").getD .null).pyStr))
    ∧ (∀ (items : List Json) (n : Nat), n = items.length →
        (∀ item ∈ items, ∃ fs, item = Json.obj fs
          ∧ Json.hasKey fs "translation" = true ∧ Json.hasKey fs "line" = false) →
        ∃ ts, parseTranslationResponse (fun _ => .ok (.arr items)) "[]" n = .ok ts
          ∧ ts.length = n) := by
  refine ⟨extractItem_no_line i fields ht, ?_, ?_, ?_⟩
  · intro v hv hne
    rw [extractItem, if_neg (by simpa using ht), hv]
    simp only [Option.getD_some]
    rw [if_neg (fun hc => Bool.false_ne_true (hne ▸ hc))]
  · intro v hv heq
    rw [extractItem, if_neg (by simpa using ht), hv]
    simp only [Option.getD_some]
    rw [if_pos heq]
  · intro items n hn hitems
    obtain ⟨ts, hts, hlen⟩ := extractItems_all_ok 0 items hitems
    refine ⟨ts, ?_, by omega⟩
    have hstep : parseTranslationResponse (fun _ => .ok (.arr items)) "[]" n
        = if items.length ≠ n then .error (countMismatchMsg n items.length)
          else extractItems 0 items := rfl
    rw [hstep, if_neg (by omega), hts]

/-- C10 witness: a single-field item without `line` is accepted. -/
theorem C10_line_defaulting_witness :
    Json.hasKey [("translation", Json.str "hola")] "translation" = true
    ∧ extractItem 0 (.obj [("translation", Json.str "hola")]) = .ok "hola" :=
  ⟨by decide,
    (((C10_line_defaulting 0 [("translation", Json.str "hola")] (by decide)).1
      (by decide)).trans (by decide))⟩

lemma charsMatchAt_iff (p l : List Char) : charsMatchAt p l = true ↔ p <+: l := by
  induction p generalizing l with
  | nil => simp [charsMatchAt]
  | cons a as ih =>
    cases l with
    | nil => simp [charsMatchAt]
    | cons b bs =>
      rw [charsMatchAt, Bool.and_eq_true, List.cons_prefix_cons]
      exact and_congr (by simp) (ih bs)

lemma listContainsSub_iff (p l : List Char) :
    listContainsSub p l = true ↔ p <:+: l := by
  induction l with
  | nil =>
    rw [listContainsSub]
    simp [List.isEmpty_iff]
  | cons b bs ih =>
    rw [listContainsSub, Bool.or_eq_true, charsMatchAt_iff, ih,
      List.infix_cons_iff]

lemma strContains_append_right (a b pat : String)
    (h : strContains b pat = true) : strContains (a ++ b) pat = true := by
  have h' := (listContainsSub_iff _ _).mp h
  apply (listContainsSub_iff _ _).mpr
  rw [String.data_append]
  exact h'.trans (List.suffix_append a.data b.data).isInfix

lemma strContains_append_left (a b pat : String)
    (h : strContains a pat = true) : strContains (a ++ b) pat = true := by
  have h' := (listContainsSub_iff _ _).mp h
  apply (listContainsSub_iff _ _).mpr
  rw [String.data_append]
  exact h'.trans (List.prefix_append a.data b.data).isInfix

/-- First character of a string, used to separate the parser's error
messages from one another. -/
def headChar (s : String) : Option Char := s.data.head?

lemma headChar_append_of (a b : String) (c : Char)
    (h : headChar a = some c) : headChar (a ++ b) = some c := by
  rw [headChar] at h ⊢
  rw [String.data_append]
  cases hd : a.data with
  | nil => rw [hd] at h; exact absurd h (by simp)
  | cons x xs =>
    rw [hd] at h
    rw [List.cons_append]
    simpa using h

lemma headChar_truncationMsg (n : Nat) :
    headChar (truncationMsg n) = some 'A' := by
  rw [truncationMsg]
  apply headChar_append_of
  apply headChar_append_of
  decide

lemma headChar_jsonFailMsg (e r : String) :
    headChar (jsonFailMsg e r) = some 'J' := by
  rw [jsonFailMsg]
  apply headChar_append_of
  apply headChar_append_of
  apply headChar_append_of
  apply headChar_append_of
  apply headChar_append_of
  apply headChar_append_of
  decide

lemma headChar_notListMsg (t : String) :
    headChar (notListMsg t) = some '期' := by
  rw [notListMsg]
  apply headChar_append_of
  decide

lemma headChar_countMismatchMsg (n a : Nat) :
    headChar (countMismatchMsg n a) = some '翻' := by
  rw [countMismatchMsg]
  apply headChar_append_of
  apply headChar_append_of
  apply headChar_append_of
  apply headChar_append_of
  decide

lemma headChar_itemNotDictMsg (i : Nat) (item : Json) :
    headChar (itemNotDictMsg i item) = some '第' := by
  rw [itemNotDictMsg]
  apply headChar_append_of
  apply headChar_append_of
  apply headChar_append_of
  decide

lemma headChar_missingTransMsg (i : Nat) (item : Json) :
    headChar (missingTransMsg i item) = some '第' := by
  rw [missingTransMsg]
  apply headChar_append_of
  apply headChar_append_of
  apply headChar_append_of
  apply headChar_append_of
  apply headChar_append_of
  apply headChar_append_of
  apply headChar_append_of
  decide

lemma headChar_lineMismatchMsg (i : Nat) (v : Json) :
    headChar (lineMismatchMsg i v) = some '第' := by
  rw [lineMismatchMsg]
  apply headChar_append_of
  apply headChar_append_of
  apply headChar_append_of
  apply headChar_append_of
  apply headChar_append_of
  decide

lemma ne_truncationMsg_of_head (m : String) (n : Nat) (c : Char)
    (h : headChar m = some c) (hc : c ≠ 'A') : m ≠ truncationMsg n := by
  intro he
  rw [he, headChar_truncationMsg] at h
  exact hc (Option.some.inj h).symm

lemma extractItem_error_head (i : Nat) (item : Json) (e : String)
    (h : extractItem i item = .error e) : headChar e = some '第' := by
  match item with
  | .obj fields =>
    rw [extractItem] at h
    by_cases ht : Json.hasKey fields "translation" = true
    · rw [if_neg (by simpa using ht)] at h
      by_cases heq : ((Json.getKey fields "line").getD
          (.num (Int.ofNat i + 1))).pyEqInt (Int.ofNat i + 1) = true
      · rw [if_pos heq] at h
        exact absurd h (by simp)
      · rw [if_neg heq] at h
        obtain rfl := (Except.error.inj h).symm
        exact headChar_lineMismatchMsg i _
    · rw [if_pos (by simpa using ht)] at h
      obtain rfl := (Except.error.inj h).symm
      exact headChar_missingTransMsg i (.obj fields)
  | .null =>
    obtain rfl := (Except.error.inj h).symm
    exact headChar_itemNotDictMsg i _
  | .bool b =>
    obtain rfl := (Except.error.inj h).symm
    exact headChar_itemNotDictMsg i _
  | .num m =>
    obtain rfl := (Except.error.inj h).symm
    exact headChar_itemNotDictMsg i _
  | .str s =>
    obtain rfl := (Except.error.inj h).symm
    exact headChar_itemNotDictMsg i _
  | .arr xs =>
    obtain rfl := (Except.error.inj h).symm
    exact headChar_itemNotDictMsg i _

lemma extractItems_error_head :
    ∀ (i : Nat) (items : List Json) (e : String),
      extractItems i items = .error e → headChar e = some '第' := by
  intro i items
  induction items generalizing i with
  | nil =>
    intro e h
    exact absurd h (by simp [extractItems])
  | cons item rest ih =>
    intro e h
    rw [extractItems] at h
    cases h1 : extractItem i item with
    | error e1 =>
      rw [h1] at h
      have he := Except.error.inj h
      rw [← he]
      exact extractItem_error_head i item e1 h1
    | ok t =>
      rw [h1] at h
      cases h2 : extractItems (i + 1) rest with
      | error e2 =>
        rw [h2] at h
        have he := Except.error.inj h
        rw [← he]
        exact ih (i + 1) e2 h2
      | ok ts =>
        rw [h2] at h
        exact absurd h (by simp)

lemma loadsWithRepairs_error (J : String → Except String Json)
    (resp m : String) (h : loadsWithRepairs J resp = .error m) :
    ∃ e rr, m = jsonFailMsg e rr := by
  rw [loadsWithRepairs] at h
  cases hJ : J resp with
  | ok d =>
    rw [hJ] at h
    exact absurd h (by simp)
  | error e =>
    rw [hJ] at h
    cases hOpt : ((if strEndsWith (pyRstrip resp) ",]" then
            (J (applyFix1 resp)).toOption
          else none).orElse
        (fun _ =>
          if ¬ (strEndsWith (pyRstrip (applyFix1 resp)) "]") then
            (J (applyFix2 (applyFix1 resp))).toOption
          else none)) with
    | some d =>
      rw [hOpt] at h
      exact absurd h (by simp)
    | none =>
      rw [hOpt] at h
      exact ⟨e, _, (Except.error.inj h).symm⟩

lemma parse_not_trunc (J : String → Except String Json) (r : String) (n : Nat)
    (hab : ¬ (isAbbreviated (normalizeResponse r) = true)) :
    parseTranslationResponse J r n ≠ .error (truncationMsg n) := by
  rw [parseTranslationResponse, if_neg hab]
  cases hl : loadsWithRepairs J (normalizeResponse r) with
  | error msg =>
    intro h
    obtain ⟨e, rr, rfl⟩ := loadsWithRepairs_error J _ msg hl
    exact ne_truncationMsg_of_head _ n 'J' (headChar_jsonFailMsg e rr)
      (by decide) (Except.error.inj h)
  | ok data =>
    cases data with
    | arr items =>
      show (if items.length ≠ n then
              Except.error (countMismatchMsg n items.length)
            else extractItems 0 items) ≠ Except.error (truncationMsg n)
      by_cases hlen : items.length ≠ n
      · rw [if_pos hlen]
        intro h
        exact ne_truncationMsg_of_head _ n '翻'
          (headChar_countMismatchMsg n items.length) (by decide)
          (Except.error.inj h)
      · rw [if_neg hlen]
        intro h
        exact ne_truncationMsg_of_head _ n '第'
          (extractItems_error_head 0 items _ h) (by decide) rfl
    | null =>
      intro h
      exact ne_truncationMsg_of_head _ n '期'
        (headChar_notListMsg _) (by decide) (Except.error.inj h)
    | bool b =>
      intro h
      exact ne_truncationMsg_of_head _ n '期'
        (headChar_notListMsg _) (by decide) (Except.error.inj h)
    | num m =>
      intro h
      exact ne_truncationMsg_of_head _ n '期'
        (headChar_notListMsg _) (by decide) (Except.error.inj h)
    | str s =>
      intro h
      exact ne_truncationMsg_of_head _ n '期'
        (headChar_notListMsg _) (by decide) (Except.error.inj h)
    | obj fs =>
      intro h
      exact ne_truncationMsg_of_head _ n '期'
        (headChar_notListMsg _) (by decide) (Except.error.inj h)

/-- C3 (amended): the parser classifies a response as the distinguished
truncated/abbreviated failure exactly when, after fence-stripping and
prose-skipping, the text contains the three-dot token and does not
contain a three-dot token immediately preceded by a double quote — a
textual test, not "outside of a quoted string value"; moreover the
upstream recovery trigger of `_translate_batch` fires on any error
message containing `省略格式` or `...`, which is the case for the
truncation message but also for every generic JSON-decode failure
message (its preview suffix embeds `...`) and every count-mismatch
message (its hint line embeds `省略格式`), so those generic failures
drive the same recovery path instead of being retried as-is. -/
theorem C3_truncation_classification :
    (∀ (J : String → Except String Json) (r : String) (n : Nat),
      parseTranslationResponse J r n = .error (truncationMsg n)
        ↔ isAbbreviated (normalizeResponse r) = true)
    ∧ (∀ s, isAbbreviated s = (strContains s "..." && !(strContains s "\"...")))
    ∧ (∀ n, hasTruncMarker (truncationMsg n) = true)
    ∧ (∀ e resp, hasTruncMarker (jsonFailMsg e resp) = true)
    ∧ (∀ n a, hasTruncMarker (countMismatchMsg n a) = true) := by
  refine ⟨?_, fun s => rfl, ?_, ?_, ?_⟩
  · intro J r n
    constructor
    · intro h
      by_contra hab
      exact parse_not_trunc J r n hab h
    · intro hab
      rw [parseTranslationResponse, if_pos hab]
  · intro n
    rw [hasTruncMarker, Bool.or_eq_true]
    left
    rw [truncationMsg]
    exact strContains_append_left _ _ _ (strContains_append_left _ _ _ (by decide))
  · intro e resp
    rw [hasTruncMarker, Bool.or_eq_true]
    right
    rw [jsonFailMsg]
    exact strContains_append_left _ _ _ (strContains_append_left _ _ _
      (strContains_append_right _ _ _ (by decide)))
  · intro n a
    rw [hasTruncMarker, Bool.or_eq_true]
    left
    rw [countMismatchMsg]
    exact strContains_append_right _ _ _ (by decide)

/-- C3 counterexample to the claim as frozen: in the response
`[{"line": 1, "translation": "so..."}]` the only ellipsis lies inside a
quoted string value (the spec-side scanner returns `false`), yet the
parser classifies the response as the distinguished truncation failure
rather than attempting to decode it. -/
theorem C3_ellipsis_in_string_counterexample :
    spec_ellipsisOutsideQuotes respEllipsisInString = false
    ∧ parseTranslationResponse (fun _ => .error "e") respEllipsisInString 1
        = .error (truncationMsg 1) := by
  constructor
  · decide
  · decide

lemma extractItems_ok_length :
    ∀ (i : Nat) (items : List Json) (ts : List String),
      extractItems i items = .ok ts → ts.length = items.length := by
  intro i items
  induction items generalizing i with
  | nil =>
    intro ts h
    have he : ([] : List String) = ts := Except.ok.inj h
    rw [← he]
    rfl
  | cons item rest ih =>
    intro ts h
    simp only [extractItems] at h
    split at h
    · exact Except.noConfusion h
    · split at h
      · exact Except.noConfusion h
      · next t heqI ts2 heqR =>
        have he := Except.ok.inj h
        rw [← he]
        simp [ih (i + 1) ts2 heqR]

lemma parse_ok_length (J : String → Except String Json) (r : String)
    (n : Nat) (ts : List String) :
    parseTranslationResponse J r n = .ok ts → ts.length = n := by
  rw [parseTranslationResponse]
  by_cases hab : isAbbreviated (normalizeResponse r) = true
  · rw [if_pos hab]
    intro h
    exact Except.noConfusion h
  · rw [if_neg hab]
    cases hl : loadsWithRepairs J (normalizeResponse r) with
    | error msg =>
      intro h
      exact Except.noConfusion h
    | ok data =>
      cases data with
      | arr items =>
        show (if items.length ≠ n then
                Except.error (countMismatchMsg n items.length)
              else extractItems 0 items) = .ok ts → ts.length = n
        by_cases hlen : items.length ≠ n
        · rw [if_pos hlen]
          intro h
          exact Except.noConfusion h
        · rw [if_neg hlen]
          intro h
          rw [extractItems_ok_length 0 items ts h]
          omega
      | null => intro h; exact Except.noConfusion h
      | bool b => intro h; exact Except.noConfusion h
      | num m => intro h; exact Except.noConfusion h
      | str s => intro h; exact Except.noConfusion h
      | obj fs => intro h; exact Except.noConfusion h

lemma mkTranslated_keeps (entries : List SubtitleEntry) (ts : List String)
    (hlen : ts.length = entries.length) :
    List.Forall₂ keepsFrame entries (mkTranslated entries ts) := by
  induction entries generalizing ts with
  | nil => exact List.Forall₂.nil
  | cons e es ih =>
    cases ts with
    | nil => simp at hlen
    | cons t ts2 =>
      rw [mkTranslated, List.zipWith_cons_cons]
      exact List.Forall₂.cons ⟨rfl, rfl⟩ (ih ts2 (by simpa using hlen))

lemma transRun_keeps (J : String → Except String Json)
    (chan : Nat → Except String String) (cfg : TConfig) :
    ∀ (fuel : Nat) (fr : TransFrame) (out : List SubtitleEntry) (k1 : Nat),
      transRun J chan cfg fuel fr = (.ok out, k1) →
      List.Forall₂ keepsFrame fr.entries out := by
  intro fuel
  induction fuel with
  | zero =>
    intro fr out k1 h
    simp only [transRun] at h
    injection h with h1 h2
    exact Except.noConfusion h1
  | succ fuel ih =>
    intro fr out k1 h
    cases fr with
    | batch entries cb ca rc k =>
      simp only [transRun] at h
      show List.Forall₂ keepsFrame entries out
      by_cases hbig : 100 < entries.length ∧ 2 ≤ rc
      · rw [if_pos hbig] at h
        split at h
        · injection h with h1 h2
          exact Except.noConfusion h1
        · next b1 kk1 heq1 =>
          split at h
          · injection h with h1 h2
            exact Except.noConfusion h1
          · next b2 kk2 heq2 =>
            injection h with h1 h2
            have hout := Except.ok.inj h1
            rw [← hout, ← List.take_append_drop (entries.length / 2) entries]
            exact List.rel_append (ih _ _ _ heq1) (ih _ _ _ heq2)
      · rw [if_neg hbig] at h
        exact ih _ _ _ h
    | attempt entries cb ca rc aLeft k =>
      cases aLeft with
      | zero =>
        simp only [transRun] at h
        injection h with h1 h2
        exact Except.noConfusion h1
      | succ aLeft =>
        simp only [transRun] at h
        show List.Forall₂ keepsFrame entries out
        split at h
        · -- channel raised
          split at h
          · exact ih _ _ _ h
          · injection h with h1 h2
            exact Except.noConfusion h1
        · -- channel answered
          split at h
          · next ts hts =>
            injection h with h1 h2
            have hout := Except.ok.inj h1
            rw [← hout]
            exact mkTranslated_keeps entries ts (parse_ok_length J _ _ ts hts)
          · -- parse failed
            split at h
            · exact ih _ _ _ h
            · split at h
              · exact ih _ _ _ h
              · injection h with h1 h2
                exact Except.noConfusion h1

lemma translateChunks_keeps (J : String → Except String Json)
    (chan : Nat → Except String String) (cfg : TConfig) (fuel total : Nat) :
    ∀ (plan : List PlannedBatch) (bn k : Nat) (out : List SubtitleEntry) (k1 : Nat),
      translateChunks J chan cfg fuel total bn plan k = (.ok out, k1) →
      List.Forall₂ keepsFrame ((plan.map PlannedBatch.entries).flatten) out := by
  intro plan
  induction plan with
  | nil =>
    intro bn k out k1 h
    simp only [translateChunks] at h
    injection h with h1 h2
    have hout : ([] : List SubtitleEntry) = out := Except.ok.inj h1
    rw [← hout]
    exact List.Forall₂.nil
  | cons b bs ih =>
    intro bn k out k1 h
    simp only [translateChunks] at h
    split at h
    · injection h with h1 h2
      exact Except.noConfusion h1
    · next b1 k2 heq1 =>
      split at h
      · injection h with h1 h2
        exact Except.noConfusion h1
      · next rest k3 heq2 =>
        injection h with h1 h2
        have hout : b1 ++ rest = out := Except.ok.inj h1
        rw [← hout, List.map_cons, List.flatten_cons]
        exact List.rel_append (transRun_keeps J chan cfg fuel _ _ _ heq1)
          (ih (bn + 1) k2 rest k3 heq2)

/-- C2: whenever a batch translation succeeds, the returned list has the
same length as the input and each position keeps the source entry's
`index` and `timecode`, only `text` changing; the same holds for a
successful whole-document `translate_subtitles` run. -/
theorem C2_translation_frame (J : String → Except String Json)
    (chan : Nat → Except String String) (cfg : TConfig) (fuel : Nat)
    (entries : List SubtitleEntry) (cb ca : Option String) (rc k : Nat)
    (out : List SubtitleEntry) (k1 : Nat) :
    (translateBatch J chan cfg fuel entries cb ca rc k = (.ok out, k1) →
      out.length = entries.length ∧ List.Forall₂ keepsFrame entries out)
    ∧ (translateSubtitles J chan cfg fuel entries = (.ok out, k1) →
      out.length = entries.length ∧ List.Forall₂ keepsFrame entries out) := by
  constructor
  · intro h
    have hk := transRun_keeps J chan cfg fuel (.batch entries cb ca rc k) out k1 h
    exact ⟨hk.length_eq.symm, hk⟩
  · intro h
    rw [translateSubtitles] at h
    by_cases he : entries = []
    · rw [if_pos he] at h
      injection h with h1 h2
      have hout : ([] : List SubtitleEntry) = out := Except.ok.inj h1
      subst he
      rw [← hout]
      exact ⟨rfl, List.Forall₂.nil⟩
    · rw [if_neg he] at h
      by_cases hle : entries.length ≤ cfg.maxLinesPerBatch
      · rw [if_pos hle] at h
        split at h
        · next outb kb heq =>
          injection h with h1 h2
          have hout : outb = out := Except.ok.inj h1
          rw [← hout]
          have hk := transRun_keeps J chan cfg fuel (.batch entries none none 0 0)
            outb kb heq
          exact ⟨hk.length_eq.symm, hk⟩
        · injection h with h1 h2
          exact Except.noConfusion h1
      · rw [if_neg hle] at h
        by_cases hz : cfg.maxLinesPerBatch = 0
        · rw [if_pos hz] at h
          injection h with h1 h2
          exact Except.noConfusion h1
        · rw [if_neg hz] at h
          have hch := translateChunks_keeps J chan cfg fuel _ _ _ _ out k1 h
          rw [planBatches_multi entries cfg.maxLinesPerBatch (by omega),
            planLoop_flatten cfg.maxLinesPerBatch (by omega) entries.length
              entries le_rfl none] at hch
          exact ⟨hch.length_eq.symm, hch⟩

lemma transRun_batch_small (J : String → Except String Json)
    (chan : Nat → Except String String) (cfg : TConfig) (fuel : Nat)
    (entries : List SubtitleEntry) (cb ca : Option String) (rc k : Nat)
    (h : ¬ (100 < entries.length ∧ 2 ≤ rc)) :
    transRun J chan cfg (fuel + 1) (.batch entries cb ca rc k)
      = transRun J chan cfg fuel (.attempt entries cb ca rc cfg.maxRetries k) := by
  simp only [transRun]
  rw [if_neg h]

lemma transRun_attempt_err (J : String → Except String Json)
    (chan : Nat → Except String String) (cfg : TConfig) (fuel : Nat)
    (entries : List SubtitleEntry) (cb ca : Option String) (rc aLeft k : Nat)
    (e : String) (hc : chan k = .error e) :
    transRun J chan cfg (fuel + 1) (.attempt entries cb ca rc (aLeft + 1) k)
      = if 0 < aLeft then
          transRun J chan cfg fuel (.attempt entries cb ca rc aLeft (k + 1))
        else (.error (.api ("API 调用失败: " ++ e)), k + 1) := by
  simp only [transRun]
  rw [hc]

lemma transRun_attempt_ok (J : String → Except String Json)
    (chan : Nat → Except String String) (cfg : TConfig) (fuel : Nat)
    (entries : List SubtitleEntry) (cb ca : Option String) (rc aLeft k : Nat)
    (body : String) (hc : chan k = .ok body) :
    transRun J chan cfg (fuel + 1) (.attempt entries cb ca rc (aLeft + 1) k)
      = match parseTranslationResponse J (pyStrip body) entries.length with
        | .ok ts => (.ok (mkTranslated entries ts), k + 1)
        | .error msg =>
          if hasTruncMarker msg ∧ 50 < entries.length then
            transRun J chan cfg fuel (.batch entries cb ca (rc + 99) (k + 1))
          else if 0 < aLeft then
            transRun J chan cfg fuel (.attempt entries cb ca rc aLeft (k + 1))
          else (.error (.parse msg), k + 1) := by
  simp only [transRun]
  rw [hc]

lemma transRun_rc_irrel (J : String → Except String Json)
    (chan : Nat → Except String String) (cfg : TConfig) :
    ∀ (fuel : Nat) (entries : List SubtitleEntry) (cb ca : Option String)
      (k rc rc' aLeft : Nat), entries.length ≤ 100 →
      transRun J chan cfg fuel (.batch entries cb ca rc k)
        = transRun J chan cfg fuel (.batch entries cb ca rc' k)
      ∧ transRun J chan cfg fuel (.attempt entries cb ca rc aLeft k)
        = transRun J chan cfg fuel (.attempt entries cb ca rc' aLeft k) := by
  intro fuel
  induction fuel with
  | zero =>
    intro entries cb ca k rc rc' aLeft hle
    exact ⟨rfl, rfl⟩
  | succ fuel ih =>
    intro entries cb ca k rc rc' aLeft hle
    constructor
    · have hng : ¬ (100 < entries.length ∧ 2 ≤ rc) := by omega
      have hng2 : ¬ (100 < entries.length ∧ 2 ≤ rc') := by omega
      rw [transRun_batch_small J chan cfg fuel entries cb ca rc k hng,
        transRun_batch_small J chan cfg fuel entries cb ca rc' k hng2]
      exact (ih entries cb ca k rc rc' cfg.maxRetries hle).2
    · cases aLeft with
      | zero => simp only [transRun]
      | succ aLeft =>
        cases hc : chan k with
        | error e =>
          rw [transRun_attempt_err J chan cfg fuel entries cb ca rc aLeft k e hc,
            transRun_attempt_err J chan cfg fuel entries cb ca rc' aLeft k e hc]
          by_cases ha : 0 < aLeft
          · rw [if_pos ha, if_pos ha]
            exact (ih entries cb ca (k + 1) rc rc' aLeft hle).2
          · rw [if_neg ha, if_neg ha]
        | ok body =>
          rw [transRun_attempt_ok J chan cfg fuel entries cb ca rc aLeft k body hc,
            transRun_attempt_ok J chan cfg fuel entries cb ca rc' aLeft k body hc]
          cases hp : parseTranslationResponse J (pyStrip body) entries.length with
          | ok ts => rfl
          | error msg =>
            show (if hasTruncMarker msg ∧ 50 < entries.length then
                    transRun J chan cfg fuel (.batch entries cb ca (rc + 99) (k + 1))
                  else if 0 < aLeft then
                    transRun J chan cfg fuel (.attempt entries cb ca rc aLeft (k + 1))
                  else (.error (.parse msg), k + 1))
                = (if hasTruncMarker msg ∧ 50 < entries.length then
                    transRun J chan cfg fuel (.batch entries cb ca (rc' + 99) (k + 1))
                  else if 0 < aLeft then
                    transRun J chan cfg fuel (.attempt entries cb ca rc' aLeft (k + 1))
                  else (.error (.parse msg), k + 1))
            by_cases hm : hasTruncMarker msg ∧ 50 < entries.length
            · rw [if_pos hm, if_pos hm]
              exact (ih entries cb ca (k + 1) (rc + 99) (rc' + 99) 0 hle).1
            · rw [if_neg hm, if_neg hm]
              by_cases ha : 0 < aLeft
              · rw [if_pos ha, if_pos ha]
                exact (ih entries cb ca (k + 1) rc rc' aLeft hle).2
              · rw [if_neg ha, if_neg ha]

/-- C4 counterexample: a 51-entry batch whose first channel answer is a
bare ellipsis (a truncation-classified parse failure).  The spec requires
bisection for every batch of more than 50 entries, but the program
re-enters `_translate_batch` on the *same 51 entries* (retry_count + 99)
and succeeds wholesale on the second channel call — only two calls are
made and the result covers all 51 entries at once.  Had the claimed
midpoint bisection happened, the first half (25 entries) would have been
sent alone and this channel/decoder pair would have answered it with a
51-item body, a count-mismatch parse failure — an observably different
outcome, shown by the second conjunct. -/
theorem C4_no_bisect_at_51_counterexample :
    transRun oracleC4 chanC4 {} 9 (.batch ents51 none none 0 0)
      = (.ok (mkTranslated ents51 textsC4), 2)
    ∧ (transRun oracleC4 chanC4 {} 9
        (.batch (ents51.take 25) none
          ((ents51.get? 25).map (fun e => e.text)) 0 1)).1
      = .error (.parse (countMismatchMsg 25 51)) := by
  constructor
  · decide
  · decide

/-- C4, amended to the implemented policy: (i) for every batch of at
most 100 entries the run is independent of `retry_count` — in particular
no batch of at most 100 (hence none of at most 50) entries is ever
bisected; (ii) a truncation-classified parse failure on a batch of more
than 50 entries abandons the retry loop and re-enters `_translate_batch`
on the same, unsplit batch with `retry_count + 99`; (iii) bisection at
the midpoint, with contexts re-derived from the entries adjacent to the
split, happens exactly on entry into a batch of more than 100 entries
with `retry_count >= 2`, the halves translated in order and
concatenated. -/
theorem C4_bisection_policy (J : String → Except String Json)
    (chan : Nat → Except String String) (cfg : TConfig) (fuel : Nat)
    (entries : List SubtitleEntry) (cb ca : Option String)
    (rc rc' aLeft k : Nat) (body msg : String) :
    (entries.length ≤ 100 →
      transRun J chan cfg fuel (.batch entries cb ca rc k)
        = transRun J chan cfg fuel (.batch entries cb ca rc' k))
    ∧ (chan k = .ok body →
       parseTranslationResponse J (pyStrip body) entries.length = .error msg →
       hasTruncMarker msg = true → 50 < entries.length →
       transRun J chan cfg (fuel + 1) (.attempt entries cb ca rc (aLeft + 1) k)
         = transRun J chan cfg fuel (.batch entries cb ca (rc + 99) (k + 1)))
    ∧ (100 < entries.length → 2 ≤ rc →
       transRun J chan cfg (fuel + 1) (.batch entries cb ca rc k)
         = match transRun J chan cfg fuel
             (.batch (entries.take (entries.length / 2)) cb
               ((entries.get? (entries.length / 2)).map (fun e => e.text)) 0 k) with
           | (.error e, k1) => (.error e, k1)
           | (.ok b1, k1) =>
             match transRun J chan cfg fuel
                 (.batch (entries.drop (entries.length / 2))
                   ((entries.get? (entries.length / 2 - 1)).map (fun e => e.text))
                   ca 0 k1) with
             | (.error e, k2) => (.error e, k2)
             | (.ok b2, k2) => (.ok (b1 ++ b2), k2)) := by
  refine ⟨?_, ?_, ?_⟩
  · intro hle
    exact (transRun_rc_irrel J chan cfg fuel entries cb ca k rc rc' 0 hle).1
  · intro hc hp hm hlen
    rw [transRun_attempt_ok J chan cfg fuel entries cb ca rc aLeft k body hc, hp]
    show (if hasTruncMarker msg ∧ 50 < entries.length then
            transRun J chan cfg fuel (.batch entries cb ca (rc + 99) (k + 1))
          else if 0 < aLeft then
            transRun J chan cfg fuel (.attempt entries cb ca rc aLeft (k + 1))
          else (.error (.parse msg), k + 1))
        = transRun J chan cfg fuel (.batch entries cb ca (rc + 99) (k + 1))
    rw [if_pos ⟨hm, hlen⟩]
  · intro h1 h2
    simp only [transRun]
    rw [if_pos ⟨h1, h2⟩]

/-- C4 witness: the 51-entry fixture batch is below the bisection guard,
so its run ignores the retry count entirely. -/
theorem C4_bisection_policy_witness :
    ents51.length ≤ 100
    ∧ transRun oracleC4 chanC4 {} 9 (.batch ents51 none none 0 0)
        = transRun oracleC4 chanC4 {} 9 (.batch ents51 none none 5 0) :=
  ⟨by decide,
    (C4_bisection_policy oracleC4 chanC4 {} 9 ents51 none none 0 5 0 0 "x" "y").1
      (by decide)⟩

/-- C2 witness: a one-line document translated through a well-behaved
channel and decoder. -/
theorem C2_translation_frame_witness :
    translateSubtitles (oracleGood 1) chanGood {} 3 [mkEnt 0]
        = (.ok [{ index := "1", timecode := "00:00:00,000 --> 00:00:01,000",
                  text := "t0" }], 1)
    ∧ [({ index := "1", timecode := "00:00:00,000 --> 00:00:01,000",
          text := "t0" } : SubtitleEntry)].length = [mkEnt 0].length :=
  ⟨by decide,
    ((C2_translation_frame (oracleGood 1) chanGood {} 3 [mkEnt 0] none none 0 0
      [{ index := "1", timecode := "00:00:00,000 --> 00:00:01,000",
         text := "t0" }] 1).2 (by decide)).1⟩

lemma appTryBatch_err_step (chanA : Nat → Except String String)
    (b : List SubtitleEntry) (aLeft k : Nat) (e : String)
    (hc : chanA k = .error e) (ha : 0 < aLeft) :
    appTryBatch chanA b (aLeft + 1) k = appTryBatch chanA b aLeft (k + 1) := by
  simp only [appTryBatch]
  rw [hc]
  show (if 0 < aLeft then appTryBatch chanA b aLeft (k + 1)
        else ((BatchOutcome.substituted, k + 1) : BatchOutcome × Nat))
      = appTryBatch chanA b aLeft (k + 1)
  rw [if_pos ha]

lemma appTryBatch_err_last (chanA : Nat → Except String String)
    (b : List SubtitleEntry) (k : Nat) (e : String)
    (hc : chanA k = .error e) :
    appTryBatch chanA b 1 k = (.substituted, k + 1) := by
  show appTryBatch chanA b (0 + 1) k = (.substituted, k + 1)
  simp only [appTryBatch]
  rw [hc]
  show (if 0 < 0 then appTryBatch chanA b 0 (k + 1)
        else ((BatchOutcome.substituted, k + 1) : BatchOutcome × Nat))
      = (.substituted, k + 1)
  rw [if_neg (by omega)]

lemma appTryBatch_ok_mismatch (chanA : Nat → Except String String)
    (b : List SubtitleEntry) (aLeft k : Nat) (body : String)
    (hc : chanA k = .ok body)
    (hm : (splitTranslations body).length ≠ b.length) :
    appTryBatch chanA b (aLeft + 1) k = (.substituted, k + 1) := by
  simp only [appTryBatch]
  rw [hc]
  show (if (splitTranslations body).length = b.length
        then ((BatchOutcome.translated (splitTranslations body), k + 1) :
          BatchOutcome × Nat)
        else (.substituted, k + 1))
      = (.substituted, k + 1)
  rw [if_neg hm]

lemma appTryBatch_translated_len (chanA : Nat → Except String String)
    (b : List SubtitleEntry) :
    ∀ (aLeft k : Nat) (ts : List String) (k1 : Nat),
      appTryBatch chanA b aLeft k = (.translated ts, k1) →
      ts.length = b.length := by
  intro aLeft
  induction aLeft with
  | zero =>
    intro k ts k1 h
    simp only [appTryBatch] at h
    injection h with h1 h2
    exact BatchOutcome.noConfusion h1
  | succ aLeft ih =>
    intro k ts k1 h
    simp only [appTryBatch] at h
    split at h
    · -- channel answered
      split at h
      · next hlen =>
        injection h with h1 h2
        have hts := BatchOutcome.translated.inj h1
        rw [← hts]
        exact hlen
      · injection h with h1 h2
        exact BatchOutcome.noConfusion h1
    · -- channel raised
      split at h
      · exact ih _ _ _ h
      · injection h with h1 h2
        exact BatchOutcome.noConfusion h1

lemma zipClean_keeps (cleanPunct : String → String) :
    ∀ (b : List SubtitleEntry) (ts : List String), ts.length = b.length →
      List.Forall₂ keepsFrame b ((b.zip ts).map (fun p =>
        ({ index := p.1.index, timecode := p.1.timecode,
           text := cleanPunct p.2 } : SubtitleEntry))) := by
  intro b
  induction b with
  | nil => intro ts hlen; exact List.Forall₂.nil
  | cons e es ih =>
    intro ts hlen
    cases ts with
    | nil => simp at hlen
    | cons t ts2 =>
      rw [List.zip_cons_cons, List.map_cons]
      exact List.Forall₂.cons ⟨rfl, rfl⟩ (ih ts2 (by simpa using hlen))

lemma appBatchLoop_keeps (chanA : Nat → Except String String)
    (cleanPunct : String → String) :
    ∀ (chunks : List (List SubtitleEntry)) (bn k : Nat),
      List.Forall₂ keepsFrame chunks.flatten
        (appBatchLoop chanA cleanPunct chunks bn k).1 := by
  intro chunks
  induction chunks with
  | nil =>
    intro bn k
    simp only [appBatchLoop, List.flatten_nil]
    exact List.Forall₂.nil
  | cons b bs ih =>
    intro bn k
    rw [List.flatten_cons]
    simp only [appBatchLoop]
    cases htb : appTryBatch chanA b 3 k with
    | mk outc k1 =>
      cases outc with
      | translated ts =>
        show List.Forall₂ keepsFrame (b ++ bs.flatten)
          ((b.zip ts).map (fun p =>
            ({ index := p.1.index, timecode := p.1.timecode,
               text := cleanPunct p.2 } : SubtitleEntry))
            ++ (appBatchLoop chanA cleanPunct bs (bn + 1) k1).1)
        exact List.rel_append
          (zipClean_keeps cleanPunct b ts
            (appTryBatch_translated_len chanA b 3 k ts k1 htb)) (ih (bn + 1) k1)
      | substituted =>
        show List.Forall₂ keepsFrame (b ++ bs.flatten)
          (b ++ (appBatchLoop chanA cleanPunct bs (bn + 1) k1).1)
        exact List.rel_append
          (List.forall₂_same.mpr (fun x hx => ⟨rfl, rfl⟩)) (ih (bn + 1) k1)

lemma appTranslate_eq (chanA : Nat → Except String String)
    (cleanPunct : String → String) (saveOk : Bool)
    (subs : List SubtitleEntry) (sourceLang : String)
    (hsubs : subs ≠ []) (outSubs : List SubtitleEntry)
    (failed : List Nat) (kk : Nat)
    (hab : appBatchLoop chanA cleanPunct (chunkList BATCH_SIZE subs) 1 0
      = (outSubs, failed, kk)) :
    appTranslateSubtitles chanA cleanPunct saveOk subs sourceLang
      = (if ¬ saveOk then false
         else if (19 : ℚ)/20 ≤
             (checkTranslationQuality subs outSubs sourceLang).2.2 then true
         else if (4 : ℚ)/5 ≤
             (checkTranslationQuality subs outSubs sourceLang).2.2 then true
         else false, outSubs, failed) := by
  rw [appTranslateSubtitles, if_neg hsubs, hab]
  show (if ¬ saveOk then ((false, outSubs, failed) :
          Bool × List SubtitleEntry × List Nat)
        else if (19 : ℚ)/20 ≤
            (checkTranslationQuality subs outSubs sourceLang).2.2 then
          (true, outSubs, failed)
        else if (4 : ℚ)/5 ≤
            (checkTranslationQuality subs outSubs sourceLang).2.2 then
          (true, outSubs, failed)
        else (false, outSubs, failed))
      = _
  by_cases hs : ¬ saveOk
  · rw [if_pos hs, if_pos hs]
  · rw [if_neg hs, if_neg hs]
    by_cases h95 : (19 : ℚ)/20 ≤ (checkTranslationQuality subs outSubs sourceLang).2.2
    · rw [if_pos h95, if_pos h95]
    · rw [if_neg h95, if_neg h95]
      by_cases h80 : (4 : ℚ)/5 ≤ (checkTranslationQuality subs outSubs sourceLang).2.2
      · rw [if_pos h80, if_pos h80]
      · rw [if_neg h80, if_neg h80]

/-- C6 counterexample: for the two-line document and a channel whose
first answer splits into a single piece (the app-level analogue of a
generic parse failure — a piece-count mismatch), the batch is
substituted immediately at call index 1: no retry is issued, although
the claim requires up to `max_retries` retries and although the very
next channel answer (`"A\n---\nB"`, second conjunct) would have split
into exactly two pieces.  The third conjunct shows the whole loop run:
the original entries are substituted, batch 1 is recorded failed, and
only one channel call was ever made. -/
theorem C6_mismatch_no_retry_counterexample :
    appTryBatch chanC6 subs2 3 0 = (.substituted, 1)
    ∧ splitTranslations "A\n---\nB" = ["A", "B"]
    ∧ appBatchLoop chanC6 (fun t => t) (chunkList BATCH_SIZE subs2) 1 0
        = (subs2, [1], 1) := by
  refine ⟨by decide, by decide, by decide⟩

/-- C6, amended to the implemented policy: (i) a channel-call failure is
retried, and three consecutive raised calls substitute the batch after
the third (`max_retries = 3`); (ii) a successful call whose response
splits into the wrong number of pieces substitutes the batch
*immediately* after that single call — a piece-count mismatch is not
retried; (iii) no batch is ever omitted: the loop output is the
in-order concatenation of per-batch results, each entry keeping its
source `index`/`timecode`; (iv) the job still reports success exactly
when the file was saved and the audited success rate reaches the 0.80
floor. -/
theorem C6_retry_substitution (chanA : Nat → Except String String)
    (cleanPunct : String → String) (saveOk : Bool) (sourceLang : String)
    (b : List SubtitleEntry) (chunks : List (List SubtitleEntry))
    (subs : List SubtitleEntry) (k bn : Nat) (e0 e1 e2 body : String) :
    (chanA k = .error e0 → chanA (k + 1) = .error e1 →
      chanA (k + 2) = .error e2 →
      appTryBatch chanA b 3 k = (.substituted, k + 3))
    ∧ (chanA k = .ok body → (splitTranslations body).length ≠ b.length →
      appTryBatch chanA b 3 k = (.substituted, k + 1))
    ∧ List.Forall₂ keepsFrame chunks.flatten
        (appBatchLoop chanA cleanPunct chunks bn k).1
    ∧ (subs ≠ [] →
      ((appTranslateSubtitles chanA cleanPunct saveOk subs sourceLang).1 = true ↔
        (saveOk = true ∧ (4 : ℚ)/5 ≤
          (checkTranslationQuality subs
            (appTranslateSubtitles chanA cleanPunct saveOk subs sourceLang).2.1
            sourceLang).2.2))) := by
  refine ⟨?_, ?_, ?_, ?_⟩
  · intro h0 h1 h2
    calc appTryBatch chanA b 3 k
        = appTryBatch chanA b 2 (k + 1) :=
          appTryBatch_err_step chanA b 2 k e0 h0 (by omega)
      _ = appTryBatch chanA b 1 (k + 1 + 1) :=
          appTryBatch_err_step chanA b 1 (k + 1) e1 h1 (by omega)
      _ = (.substituted, k + 3) :=
          appTryBatch_err_last chanA b (k + 1 + 1) e2 h2
  · intro hc hm
    exact appTryBatch_ok_mismatch chanA b 2 k body hc hm
  · exact appBatchLoop_keeps chanA cleanPunct chunks bn k
  · intro hsubs
    rcases hab : appBatchLoop chanA cleanPunct (chunkList BATCH_SIZE subs) 1 0
      with ⟨outSubs, failed, kk⟩
    rw [appTranslate_eq chanA cleanPunct saveOk subs sourceLang hsubs
      outSubs failed kk hab]
    show (if ¬ saveOk then false
          else if (19 : ℚ)/20 ≤
              (checkTranslationQuality subs outSubs sourceLang).2.2 then true
          else if (4 : ℚ)/5 ≤
              (checkTranslationQuality subs outSubs sourceLang).2.2 then true
          else false) = true
        ↔ (saveOk = true ∧ (4 : ℚ)/5 ≤
            (checkTranslationQuality subs outSubs sourceLang).2.2)
    cases saveOk with
    | false => simp
    | true =>
      rw [if_neg (by simp)]
      by_cases h95 : (19 : ℚ)/20 ≤ (checkTranslationQuality subs outSubs sourceLang).2.2
      · rw [if_pos h95]
        exact ⟨fun _ => ⟨rfl, le_trans (by norm_num) h95⟩, fun _ => rfl⟩
      · rw [if_neg h95]
        by_cases h80 : (4 : ℚ)/5 ≤ (checkTranslationQuality subs outSubs sourceLang).2.2
        · rw [if_pos h80]
          exact ⟨fun _ => ⟨rfl, h80⟩, fun _ => rfl⟩
        · rw [if_neg h80]
          constructor
          · intro hfalse
            exact absurd hfalse (by simp)
          · intro hrhs
            exact absurd hrhs.2 h80

/-- C6 witness: a channel that raises on every call substitutes the
two-line batch after the third attempt. -/
theorem C6_retry_substitution_witness :
    chanFail 0 = .error "connection refused"
    ∧ appTryBatch chanFail subs2 3 0 = (.substituted, 3) :=
  ⟨rfl,
    (C6_retry_substitution chanFail (fun t => t) true "ja" subs2 [] [] 0 1
      "connection refused" "connection refused" "connection refused" "x").1
      rfl rfl rfl⟩

end NasSub
